import Mathlib

/-!
Verification of the service_status monitoring core (willis7/service_status).

The definitions below are a shallow embedding of the Go sources:
the SQLite-backed `Storage` (storage.go), the per-service notification
manager (notify.go), the probe layer (check.go), and the sweep
orchestrator (`CheckAllServices` / `DetermineOverallStatus`).  Machine
instants are modelled as `Nat` (store) or `Int` (notification clock);
database rows are association lists keyed by the service URL.
-/

namespace ServiceStatus

/-! ## Association-list helpers (model of SQL keyed rows and Go maps) -/

/-- Look up the value stored under key `k`, first match wins. -/
def lookupA {α : Type} : List (String × α) → String → Option α
  | [], _ => none
  | p :: l, k => if p.1 == k then some p.2 else lookupA l k

/-- Insert-or-replace for a Go map assignment `m[k] = v`. -/
def setA {α : Type} (l : List (String × α)) (k : String) (v : α) : List (String × α) :=
  if l.any (fun p => p.1 == k) then
    l.map (fun p => if p.1 == k then (k, v) else p)
  else
    l ++ [(k, v)]

/-! ## Store model (storage.go)

A `service_state` row and an `incidents` row, with `DATETIME` columns as
`Nat` instants.  The Go zero `time.Time` is instant `0`; `time.Now()` is
always a positive instant. -/

/-- Row of the `service_state` table. -/
structure ServiceStateRow where
  is_up : Bool
  last_checked : Nat
  last_alert : Option Nat
deriving DecidableEq, Repr

/-- Row of the `incidents` table; `ended_at = none` is SQL NULL (open incident). -/
structure IncidentRow where
  service_url : String
  service_name : String
  started_at : Nat
  ended_at : Option Nat
  message : String
deriving DecidableEq, Repr

/-- The persistent store: the two tables the transition logic touches. -/
structure Storage where
  service_state : List (String × ServiceStateRow)
  incidents : List IncidentRow
deriving DecidableEq, Repr

/-- The store right after `initSchema` on a fresh database. -/
def emptyStorage : Storage := ⟨[], []⟩

/-- GetServiceState (storage.go): a missing row is not an error, it yields
`is_up = false`, the zero instant and a nil `last_alert`. -/
def GetServiceState (st : Storage) (url : String) : Except String (Bool × Nat × Option Nat) :=
  match lookupA st.service_state url with
  | none => .ok (false, 0, none)
  | some r => .ok (r.is_up, r.last_checked, r.last_alert)

/-- StartIncident (storage.go): INSERT a new incident row with NULL `ended_at`. -/
def StartIncident (st : Storage) (url name msg : String) (now : Nat) : Storage :=
  { st with incidents := st.incidents ++ [⟨url, name, now, none, msg⟩] }

/-- EndIncident (storage.go): UPDATE every row of this service with NULL
`ended_at`, setting `ended_at = now`. -/
def EndIncident (st : Storage) (url : String) (now : Nat) : Storage :=
  { st with incidents :=
      st.incidents.map (fun i =>
        if i.service_url == url && i.ended_at == none then
          { i with ended_at := some now }
        else i) }

/-- UpdateServiceState (storage.go): INSERT ... ON CONFLICT DO UPDATE SET
`is_up`, `last_checked`; an existing row keeps its `last_alert`, a fresh
row starts with NULL `last_alert`. -/
def UpdateServiceState (st : Storage) (url : String) (isUp : Bool) (now : Nat) : Storage :=
  match lookupA st.service_state url with
  | some _ =>
      { st with service_state :=
          st.service_state.map (fun p =>
            if p.1 == url then (url, ⟨isUp, now, p.2.last_alert⟩) else p) }
  | none =>
      { st with service_state := st.service_state ++ [(url, ⟨isUp, now, none⟩)] }

/-- RecordStatusTransition (storage.go): read the previous state, open or
close an incident on an edge (with the first-observation special case),
then upsert `service_state`.  Returns whether a transition was recorded. -/
def RecordStatusTransition (st : Storage) (url name : String) (isUp : Bool) (msg : String)
    (now : Nat) : Bool × Storage :=
  match GetServiceState st url with
  | .error _ => (false, st)
  | .ok (prevUp, prevChecked, _) =>
    let step : Bool × Storage :=
      if prevChecked == 0 then
        if !isUp then (true, StartIncident st url name msg now) else (false, st)
      else if prevUp && !isUp then (true, StartIncident st url name msg now)
      else if !prevUp && isUp then (true, EndIncident st url now)
      else (false, st)
    (step.1, UpdateServiceState step.2 url isUp now)

/-- Number of incident rows of `url` with NULL `ended_at`. -/
def openCount (st : Storage) (url : String) : Nat :=
  (st.incidents.filter (fun i => i.service_url == url && i.ended_at == none)).length

/-- Store states reachable from an empty store by `RecordStatusTransition`
calls; every call happens at a positive instant (`time.Now()` is never the
zero time). -/
inductive Reachable : Storage → Prop where
  | init : Reachable emptyStorage
  | step (st : Storage) (url name msg : String) (isUp : Bool) (now : Nat) :
      Reachable st → 0 < now →
      Reachable (RecordStatusTransition st url name isUp msg now).2

/-! ## Notification manager (notify.go)

`CheckAndNotify` is modelled as a pure step: one call happens at a single
integer instant `now`, and the delivery outcome of each configured
notifier during that call is the call's `results` list (one `Bool` per
notifier, `true` = `Notify` returned nil). -/

/-- One `CheckAndNotify` call with its externally determined inputs. -/
structure NMCall where
  url : String
  isUp : Bool
  now : Int
  results : List Bool
deriving DecidableEq, Repr

/-- The mutable state of a `NotificationManager`. -/
structure NMState where
  cooldown : Int
  lastAlert : List (String × Int)
  serviceState : List (String × Bool)
deriving DecidableEq, Repr

/-- NewNotificationManager: empty maps, given cooldown. -/
def NewNotificationManager (cooldown : Int) : NMState := ⟨cooldown, [], []⟩

/-- CheckAndNotify (notify.go): record the new state, bail out when there is
no edge, bail out inside the cooldown window, otherwise fan out to the
notifiers; if at least one succeeded, remember the alert instant. -/
def CheckAndNotify (nm : NMState) (c : NMCall) : Bool × NMState :=
  let prev := lookupA nm.serviceState c.url
  let nm1 : NMState := { nm with serviceState := setA nm.serviceState c.url c.isUp }
  if prev == some c.isUp then (false, nm1)
  else
    let coolBlocked :=
      match lookupA nm.lastAlert c.url with
      | some t => decide (c.now - t < nm.cooldown)
      | none => false
    if coolBlocked then (false, nm1)
    else
      let sent := c.results.any id
      if sent then (true, { nm1 with lastAlert := setA nm1.lastAlert c.url c.now })
      else (false, nm1)

/-- Run a sequence of `CheckAndNotify` calls, returning the final state. -/
def runNM (nm : NMState) : List NMCall → NMState
  | [] => nm
  | c :: cs => runNM (CheckAndNotify nm c).2 cs

/-- The calls of a trace happen at non-decreasing instants. -/
def Chrono (cs : List NMCall) : Prop :=
  cs.Pairwise (fun a b => a.now ≤ b.now)

/-- Alert kinds (notify.go). -/
inductive AlertType where
  | down
  | recovery
deriving DecidableEq, Repr

/-- An alert as handed to the notifiers and the store. -/
structure Alert where
  serviceURL : String
  alertType : AlertType
  message : String
  timestamp : Int
deriving DecidableEq, Repr

/-- The alert constructed by `CheckAndNotify` for an observed edge. -/
def mkAlert (url : String) (isUp : Bool) (now : Int) : Alert :=
  if isUp then ⟨url, .recovery, "Service recovered: " ++ url, now⟩
  else ⟨url, .down, "Service down: " ++ url, now⟩

/-- Notification manager state with its notifiers as response functions and
an optionally attached alert store. -/
structure NMStateS where
  notifiers : List (Alert → Bool)
  cooldown : Int
  lastAlert : List (String × Int)
  serviceState : List (String × Bool)
  storage : Option (List Alert)

/-- Modelled from the spec: the notification-manager variant carrying an
attached Store (`SetStorage`, exercised by the tests and wired up in main)
is not among the available source files; per spec §4.D step 5, when at
least one notifier succeeds the alert is recorded in the Store (if one is
attached) and `last_alert` is updated; when all fail nothing is recorded.
Everything else follows `CheckAndNotify` of the available notify source. -/
def CheckAndNotifyStored (nm : NMStateS) (url : String) (isUp : Bool) (now : Int) :
    Bool × NMStateS :=
  let prev := lookupA nm.serviceState url
  let nm1 : NMStateS := { nm with serviceState := setA nm.serviceState url isUp }
  if prev == some isUp then (false, nm1)
  else
    let coolBlocked :=
      match lookupA nm.lastAlert url with
      | some t => decide (now - t < nm.cooldown)
      | none => false
    if coolBlocked then (false, nm1)
    else
      let alert := mkAlert url isUp now
      let results := nm.notifiers.map (fun n => n alert)
      let sent := results.any id
      if sent then
        (true, { nm1 with
                  lastAlert := setA nm1.lastAlert url now
                  storage := nm1.storage.map (fun l => l ++ [alert]) })
      else (false, nm1)

/-! ## Probe layer (check.go) -/

/-- The sentinel check errors of check.go. -/
inductive CheckErr where
  | unavailable
  | degraded
  | regexNotFound
  | commandRequired
deriving DecidableEq, Repr

/-- Error text of each sentinel (check.go `errors.New` strings). -/
def errText : CheckErr → String
  | .unavailable => "commands: service unavailable"
  | .degraded => "commands: service degraded"
  | .regexNotFound => "commands: regex not found"
  | .commandRequired => "commands: command is required for script check"

/-- IsDegraded (check.go): the error is the degraded sentinel. -/
def IsDegraded (e : Option CheckErr) : Bool :=
  match e with
  | some .degraded => true
  | _ => false

/-- IsOperational (check.go): nil error or the degraded sentinel. -/
def IsOperational (e : Option CheckErr) : Bool :=
  e == none || IsDegraded e

/-- Externally observable outcome of running a script probe's command. -/
inductive ScriptOutcome where
  | exited (code : Nat)
  | signaled
  | deadlineExceeded
  | startFailed
deriving DecidableEq, Repr

/-- Exit code that Script.Status interprets as degraded. -/
def scriptExitCodeDegraded : Nat := 80

/-- Script.Status (check.go): exit 0 is up, deadline expiry is unavailable,
exit code 80 is the degraded sentinel, every other exit, signal or start
failure is unavailable. -/
def scriptStatus (o : ScriptOutcome) : Option CheckErr :=
  match o with
  | .exited 0 => none
  | .deadlineExceeded => some .unavailable
  | .exited c => if c == scriptExitCodeDegraded then some .degraded else some .unavailable
  | .signaled => some .unavailable
  | .startFailed => some .unavailable

/-- A Service value (check.go struct Service). -/
structure ServiceV where
  type : String := ""
  url : String := ""
  port : String := ""
  regex : String := ""
  name : String := ""
  command : String := ""
deriving DecidableEq, Repr

/-- ASCII whitespace as recognized when splitting a command into fields. -/
def isSpaceCh (c : Char) : Bool :=
  c == ' ' || c == '\t' || c == '\n' || c == '\r'

/-- strings.Fields on a character list: split around whitespace runs,
dropping empty fields (`cur` is the current field, reversed). -/
def fieldsAux : List Char → List Char → List (List Char)
  | [], cur => if cur.isEmpty then [] else [cur.reverse]
  | c :: rest, cur =>
    if isSpaceCh c then
      if cur.isEmpty then fieldsAux rest [] else cur.reverse :: fieldsAux rest []
    else fieldsAux rest (c :: cur)

/-- Service.DisplayName (check.go): the name, else the URL, else the first
field of the command, else "unknown". -/
def displayName (s : ServiceV) : String :=
  if s.name != "" then s.name
  else if s.url != "" then s.url
  else if s.command != "" then
    match fieldsAux s.command.data [] with
    | [] => "unknown"
    | a :: _ => ⟨a⟩
  else "unknown"

/-! ## Hostname validation for the icmp probe (check.go)

`isValidHostname` accepts parseable IP literals (net.ParseIP) or
dot-separated DNS labels.  `net.ParseIP` is modelled after the standard
library: route on the first of `.`, `:`, `%`; dotted-decimal IPv4 with
at most 3 digits per octet, values up to 255 and no leading zeros; IPv6
as colon-separated 16-bit hex groups with at most one `::` and an
optional embedded IPv4 tail; any string carrying a `%` zone is rejected
(`net.ParseIP` refuses non-empty zones and `netip` refuses empty ones). -/

/-- Decimal digit character. -/
def isDigitCh (c : Char) : Bool := 48 ≤ c.toNat && c.toNat ≤ 57

/-- ASCII letter. -/
def isAlphaCh (c : Char) : Bool :=
  (65 ≤ c.toNat && c.toNat ≤ 90) || (97 ≤ c.toNat && c.toNat ≤ 122)

/-- Hexadecimal digit character. -/
def isHexCh (c : Char) : Bool :=
  isDigitCh c || (97 ≤ c.toNat && c.toNat ≤ 102) || (65 ≤ c.toNat && c.toNat ≤ 70)

/-- Value of a hexadecimal digit. -/
def hexVal (c : Char) : Nat :=
  if isDigitCh c then c.toNat - 48
  else if 97 ≤ c.toNat then c.toNat - 87
  else c.toNat - 55

/-- Field loop of the IPv4 parser: `val`/`digLen` describe the octet being
read, `pos` counts completed octets. -/
def v4Fields : List Char → Nat → Nat → Nat → Bool
  | [], _, _, pos => pos == 3
  | c :: rest, val, digLen, pos =>
    if isDigitCh c then
      if digLen == 1 && val == 0 then false
      else
        let val2 := val * 10 + (c.toNat - 48)
        if val2 > 255 then false
        else v4Fields rest val2 (digLen + 1) pos
    else if c == '.' then
      if digLen == 0 || rest.isEmpty || pos == 3 then false
      else v4Fields rest 0 0 (pos + 1)
    else false

/-- Dotted-decimal IPv4 literal. -/
def parseIPv4 (cs : List Char) : Bool := v4Fields cs 0 0 0

/-- Read a run of hex digits into a 16-bit group; `none` means the group
overflowed 0xFFFF. -/
def readHexGroup : List Char → Nat → Option (Nat × List Char)
  | [], acc => some (acc, [])
  | c :: rest, acc =>
    if isHexCh c then
      if acc * 16 + hexVal c > 65535 then none
      else readHexGroup rest (acc * 16 + hexVal c)
    else some (acc, c :: rest)

/-- Group loop of the IPv6 parser: `g` is the number of 16-bit groups still
to fill (the byte cursor is `16 - 2*g`), `ell` whether a `::` was seen.
After a group the string must end, or continue with a colon and more
characters; a second colon is the single permitted `::`. -/
def v6Groups : List Char → Nat → Bool → Bool
  | s, 0, ell => s.isEmpty && !ell
  | s, g + 1, ell =>
    match readHexGroup s 0 with
    | none => false
    | some (_, rest) =>
      if s.length == rest.length then false
      else if rest.head? == some '.' then
        if !ell && g + 1 != 2 then false
        else if g + 1 < 2 then false
        else parseIPv4 s && (if g + 1 == 2 then !ell else ell)
      else if rest.isEmpty then (if g == 0 then !ell else ell)
      else if rest.head? != some ':' then false
      else if rest.length == 1 then false
      else if rest.tail.head? == some ':' then
        if ell then false
        else if rest.tail.tail.isEmpty then decide (g ≠ 0)
        else v6Groups rest.tail.tail g true
      else v6Groups rest.tail g ell

/-- Colon-separated IPv6 literal (without zone). -/
def parseIPv6 (cs : List Char) : Bool :=
  match cs with
  | ':' :: ':' :: rest => if rest.isEmpty then true else v6Groups rest 8 true
  | _ => v6Groups cs 8 false

/-- net.ParseIP viewed as a recognizer. -/
def parseIP (cs : List Char) : Bool :=
  if cs.contains '%' then false
  else
    match cs.find? (fun c => c == '.' || c == ':') with
    | some '.' => parseIPv4 cs
    | some _ => parseIPv6 cs
    | none => false

/-- strings.Split on dots: every maximal dot-free run, empty runs kept. -/
def splitDots : List Char → List (List Char)
  | [] => [[]]
  | c :: rest =>
    match splitDots rest with
    | [] => [[]]
    | p :: ps => if c == '.' then [] :: p :: ps else (c :: p) :: ps

/-- One DNS label: 1–63 characters, each alphanumeric or an interior hyphen. -/
def labelOk (part : List Char) : Bool :=
  decide (part.length ≠ 0) && decide (part.length ≤ 63) &&
  part.enum.all (fun ic =>
    isAlphaCh ic.2 || isDigitCh ic.2 ||
    (ic.2 == '-' && decide (0 < ic.1) && decide (ic.1 < part.length - 1)))

/-- isValidHostname (check.go): a parseable IP literal, or 1–253 characters
of dot-separated DNS labels. -/
def isValidHostname (host : String) : Bool :=
  parseIP host.data ||
  (decide (0 < host.data.length) && decide (host.data.length ≤ 253) &&
    (splitDots host.data).all labelOk)

/-- Construction failures of the icmp factory (check.go sentinels). -/
inductive CreateError where
  | invalidCreate
  | hostRequired
  | invalidHostname
deriving DecidableEq, Repr

/-- An ICMP probe value as built by the factory. -/
structure ICMPProbe where
  service : ServiceV
deriving DecidableEq, Repr

/-- ICMPFactory.Create (check.go): reject wrong types, empty hosts and
invalid hostnames before any probe value exists. -/
def ICMPFactoryCreate (s : ServiceV) : Except CreateError ICMPProbe :=
  if s.type != "icmp" then .error .invalidCreate
  else if s.url == "" then .error .hostRequired
  else if !isValidHostname s.url then .error .invalidHostname
  else .ok ⟨{ url := s.url, name := s.name }⟩

/-- Shell metacharacters, by character code: `; | & $ < > ( ) { } [ ] * ?
~ # ! " ' \` backtick, space, tab and newline. -/
def isShellMeta (c : Char) : Bool :=
  c.toNat ∈ [59, 124, 38, 36, 96, 60, 62, 40, 41, 123, 125, 91, 93,
              42, 63, 126, 35, 33, 34, 39, 92, 32, 9, 10]

/-! ## Sweep orchestrator (checker.go)

`CheckAllServices` drives one sweep over mock-style probes whose outcome
is a fixed `StatusResult`.  Store writes and notification calls are
recorded as event lists (the sweep invokes them in probe order). -/

/-- StatusResult (check.go): error and wall-clock duration of one check. -/
structure StatusResultV where
  err : Option CheckErr
  responseTime : Int
deriving DecidableEq, Repr

/-- A probe together with the outcome its check produces this sweep. -/
structure MockPinger where
  service : ServiceV
  result : StatusResultV
deriving DecidableEq, Repr

/-- ServiceInfo (page.go): an up service with its response time. -/
structure ServiceInfo where
  name : String
  responseTime : Int
deriving DecidableEq, Repr

/-- OutageInfo (page.go): a degraded or down service entry. -/
structure OutageInfo where
  minutes : Nat
  responseTime : Int
deriving DecidableEq, Repr

/-- Placeholder outage duration used for every degraded/down entry. -/
def defaultOutageMinutes : Nat := 60

/-- Accumulated result of a sweep: the three buckets plus the store and
notification calls issued, in order. -/
structure SweepAcc where
  up : List ServiceInfo
  degraded : List (String × OutageInfo)
  down : List (String × OutageInfo)
  transitions : List (String × String × Bool × String)
  statuses : List (String × Bool × String)
  notifies : List (String × Bool)
deriving DecidableEq, Repr

/-- The empty sweep accumulator. -/
def emptySweep : SweepAcc := ⟨[], [], [], [], [], []⟩

/-- Error message string passed to the store for a check outcome. -/
def errMsgOf (e : Option CheckErr) : String :=
  match e with
  | some err => errText err
  | none => ""

/-- Loop body of `CheckAllServices` (checker.go): record to the store when
attached, then place the service in exactly one bucket and inform the
notification manager when attached. -/
def checkOne (storageAttached notifyAttached : Bool) (acc : SweepAcc) (p : MockPinger) :
    SweepAcc :=
  let svc := p.service
  let dn := displayName svc
  let acc1 :=
    if storageAttached then
      { acc with
          transitions := acc.transitions ++
            [(svc.url, dn, IsOperational p.result.err, errMsgOf p.result.err)]
          statuses := acc.statuses ++
            [(svc.url, IsOperational p.result.err, errMsgOf p.result.err)] }
    else acc
  match p.result.err with
  | some e =>
    if IsDegraded (some e) then
      let acc2 := { acc1 with
        degraded := setA acc1.degraded dn ⟨defaultOutageMinutes, p.result.responseTime⟩ }
      if notifyAttached then { acc2 with notifies := acc2.notifies ++ [(svc.url, true)] }
      else acc2
    else
      let acc2 := { acc1 with
        down := setA acc1.down dn ⟨defaultOutageMinutes, p.result.responseTime⟩ }
      if notifyAttached then { acc2 with notifies := acc2.notifies ++ [(svc.url, false)] }
      else acc2
  | none =>
    let acc2 := { acc1 with up := acc1.up ++ [⟨dn, p.result.responseTime⟩] }
    if notifyAttached then { acc2 with notifies := acc2.notifies ++ [(svc.url, true)] }
    else acc2

/-- CheckAllServices (checker.go): in maintenance mode every service goes to
the `up` bucket with response time 0 and no probing happens; otherwise
each probe is checked in order. -/
def CheckAllServices (services : List MockPinger) (storageAttached notifyAttached : Bool)
    (maintenanceMsg : String) : SweepAcc :=
  if maintenanceMsg != "" then
    { emptySweep with
        up := services.map (fun p => ⟨displayName p.service, 0⟩) }
  else
    services.foldl (checkOne storageAttached notifyAttached) emptySweep

/-- DetermineOverallStatus (checker.go): maintenance, then danger, then
degraded, then success. -/
def DetermineOverallStatus (maintenanceMsg : String)
    (degraded down : List (String × OutageInfo)) : String :=
  if maintenanceMsg != "" then "maintenance"
  else if down.length > 0 then "danger"
  else if degraded.length > 0 then "degraded"
  else "success"

/-- Number of service entries a sweep result reports. -/
def reportedCount (acc : SweepAcc) : Nat :=
  acc.up.length + acc.degraded.length + acc.down.length

/-! ## Store timestamps (storage.go `parseDBTime`)

A wall-clock UTC instant is a `GoTime`; the absolute instant is its
nanosecond count since the Go zero time (January 1 of year 1, UTC), so
the zero instant is `0`.  The four entries of `sqliteTimeFormats` are
modelled as recognizers producing the absolute instant: `time.Parse`
with the `RFC3339` and `RFC3339Nano` layouts accepts the same strings
(fractional seconds are optional in both), layout `"2006-01-02
15:04:05"` takes no zone, and layout `"2006-01-02T15:04:05Z"` ends in a
literal `Z`; the last two still accept fractional seconds, which
`time.Parse` consumes even without a fraction verb in the layout. -/

/-- A broken-down UTC instant. -/
structure GoTime where
  year : Nat
  month : Nat
  day : Nat
  hour : Nat
  minute : Nat
  second : Nat
  nanos : Nat
deriving DecidableEq, Repr

/-- Gregorian leap year. -/
def isLeapYear (y : Nat) : Bool :=
  y % 4 == 0 && (y % 100 != 0 || y % 400 == 0)

/-- Length of a month (0 for an out-of-range month number). -/
def daysInMonth (y m : Nat) : Nat :=
  match m with
  | 1 => 31
  | 2 => if isLeapYear y then 29 else 28
  | 3 => 31
  | 4 => 30
  | 5 => 31
  | 6 => 30
  | 7 => 31
  | 8 => 31
  | 9 => 30
  | 10 => 31
  | 11 => 30
  | 12 => 31
  | _ => 0

/-- Days from the start of year 1 to the start of year `y`. -/
def daysBeforeYear (y : Nat) : Nat :=
  let n := y - 1
  n * 365 + n / 4 - n / 100 + n / 400

/-- Days from the start of the year to the start of month `m`. -/
def daysBeforeMonth (y m : Nat) : Nat :=
  (List.range (m - 1)).foldl (fun a i => a + daysInMonth y (i + 1)) 0

/-- Nanoseconds since the Go zero time. -/
def toNanos (t : GoTime) : Int :=
  (((daysBeforeYear t.year + daysBeforeMonth t.year t.month + (t.day - 1)) * 86400
      + t.hour * 3600 + t.minute * 60 + t.second) * 1000000000 + t.nanos : Nat)

/-- A calendar-valid instant with a four-digit year. -/
def ValidTime (t : GoTime) : Prop :=
  1 ≤ t.year ∧ t.year ≤ 9999 ∧ 1 ≤ t.month ∧ t.month ≤ 12 ∧
  1 ≤ t.day ∧ t.day ≤ daysInMonth t.year t.month ∧
  t.hour ≤ 23 ∧ t.minute ≤ 59 ∧ t.second ≤ 59 ∧ t.nanos < 1000000000

instance (t : GoTime) : Decidable (ValidTime t) := by
  unfold ValidTime; infer_instance

/-- The decimal digit character of `n % 10`. -/
def digitChar (n : Nat) : Char :=
  match n % 10 with
  | 0 => '0'
  | 1 => '1'
  | 2 => '2'
  | 3 => '3'
  | 4 => '4'
  | 5 => '5'
  | 6 => '6'
  | 7 => '7'
  | 8 => '8'
  | _ => '9'

/-- Numeric value of a digit character. -/
def digitVal (c : Char) : Nat := c.toNat - 48

/-- Zero-padded `k`-digit decimal rendering, most significant first. -/
def padDigits : Nat → Nat → List Char
  | 0, _ => []
  | k + 1, n => digitChar (n / 10 ^ k) :: padDigits k (n % 10 ^ k)

/-- Numeric value of a digit list, most significant first. -/
def valDigits (cs : List Char) : Nat :=
  cs.foldl (fun a c => a * 10 + digitVal c) 0

/-- Drop trailing zero characters (`Format` renders `.999999999` fractions
with trailing zeros removed). -/
def stripZeros (cs : List Char) : List Char :=
  (cs.reverse.dropWhile (fun c => c == '0')).reverse

/-- Fractional-second characters of a nanosecond count: nothing for zero,
otherwise a dot and the 9-digit fraction without trailing zeros. -/
def fracChars (n : Nat) : List Char :=
  if n == 0 then [] else '.' :: stripZeros (padDigits 9 n)

/-- Characters of the `2006-01-02` date part. -/
def dateChars (t : GoTime) : List Char :=
  padDigits 4 t.year ++ '-' :: padDigits 2 t.month ++ '-' :: padDigits 2 t.day

/-- Characters of the `15:04:05` clock part. -/
def clockChars (t : GoTime) : List Char :=
  padDigits 2 t.hour ++ ':' :: padDigits 2 t.minute ++ ':' :: padDigits 2 t.second

/-- Format with the `RFC3339Nano` layout (UTC instant, so zone `Z`). -/
def fmtRFC3339Nano (t : GoTime) : String :=
  ⟨dateChars t ++ 'T' :: (clockChars t ++ fracChars t.nanos ++ ['Z'])⟩

/-- Format with the `RFC3339` layout (no fraction, zone `Z`). -/
def fmtRFC3339 (t : GoTime) : String :=
  ⟨dateChars t ++ 'T' :: (clockChars t ++ ['Z'])⟩

/-- Format with the `"2006-01-02 15:04:05"` layout. -/
def fmtSQLite (t : GoTime) : String :=
  ⟨dateChars t ++ ' ' :: clockChars t⟩

/-- Format with the `"2006-01-02T15:04:05Z"` layout (literal `Z`). -/
def fmtZLayout (t : GoTime) : String :=
  ⟨dateChars t ++ 'T' :: (clockChars t ++ ['Z'])⟩

/-- Read exactly `k` decimal digits into `acc`. -/
def readFixed : Nat → Nat → List Char → Option (Nat × List Char)
  | 0, acc, cs => some (acc, cs)
  | _ + 1, _, [] => none
  | k + 1, acc, c :: cs =>
    if isDigitCh c then readFixed k (acc * 10 + digitVal c) cs else none

/-- Consume one expected literal character. -/
def lit (x : Char) : List Char → Option (List Char)
  | [] => none
  | c :: cs => if c == x then some cs else none

/-- Split off the leading run of decimal digits. -/
def takeDigits : List Char → List Char × List Char
  | [] => ([], [])
  | c :: cs =>
    if isDigitCh c then
      let p := takeDigits cs
      (c :: p.1, p.2)
    else ([], c :: cs)

/-- Nanoseconds denoted by a fraction-digit run: the first nine digits,
scaled (`parseNanoseconds` ignores digits beyond the ninth). -/
def nanosOfFrac (ds : List Char) : Nat :=
  valDigits (ds.take 9) * 10 ^ (9 - (ds.take 9).length)

/-- Optionally consume a fractional second introduced by a separator
accepted by `isSep` and at least one digit. -/
def parseFracWith (isSep : Char → Bool) (cs : List Char) : Nat × List Char :=
  match cs with
  | c :: d :: rest =>
    if isSep c && isDigitCh d then
      let p := takeDigits (d :: rest)
      (nanosOfFrac p.1, p.2)
    else (0, cs)
  | _ => (0, cs)

/-- Parse the `2006-01-02` date part. -/
def parseDateList (cs : List Char) : Option ((Nat × Nat × Nat) × List Char) := do
  let (y, cs) ← readFixed 4 0 cs
  let cs ← lit '-' cs
  let (mo, cs) ← readFixed 2 0 cs
  let cs ← lit '-' cs
  let (d, cs) ← readFixed 2 0 cs
  pure ((y, mo, d), cs)

/-- Parse the `15:04:05` clock part. -/
def parseClockList (cs : List Char) : Option ((Nat × Nat × Nat) × List Char) := do
  let (h, cs) ← readFixed 2 0 cs
  let cs ← lit ':' cs
  let (mi, cs) ← readFixed 2 0 cs
  let cs ← lit ':' cs
  let (s, cs) ← readFixed 2 0 cs
  pure ((h, mi, s), cs)

/-- Parse the RFC 3339 zone suffix, which must end the string: `Z` or a
`±hh:mm` offset with `hh ≤ 23`, `mm ≤ 59`; the offset in seconds. -/
def parseZoneEnd (cs : List Char) : Option Int :=
  match cs with
  | ['Z'] => some 0
  | [c, h1, h2, ':', m1, m2] =>
    if (c == '+' || c == '-') && isDigitCh h1 && isDigitCh h2 &&
        isDigitCh m1 && isDigitCh m2 then
      let hh := digitVal h1 * 10 + digitVal h2
      let mm := digitVal m1 * 10 + digitVal m2
      if hh ≤ 23 && mm ≤ 59 then
        let off : Int := (hh * 3600 + mm * 60 : Nat)
        some (if c == '-' then -off else off)
      else none
    else none
  | _ => none

/-- Calendar validation performed by `time.Parse`. -/
def validYMD (y mo d : Nat) : Bool :=
  1 ≤ mo && mo ≤ 12 && 1 ≤ d && d ≤ daysInMonth y mo

/-- Clock validation performed by `time.Parse`. -/
def validHMS (h mi s : Nat) : Bool :=
  h ≤ 23 && mi ≤ 59 && s ≤ 59

/-- time.Parse with the `RFC3339` / `RFC3339Nano` layouts: date, `T`,
clock, optional dot fraction, then a zone ending the string. -/
def parseRFC3339Str (cs : List Char) : Option Int := do
  let ((y, mo, d), cs) ← parseDateList cs
  let cs ← lit 'T' cs
  let ((h, mi, s), cs) ← parseClockList cs
  let p := parseFracWith (fun c => c == '.') cs
  let off ← parseZoneEnd p.2
  if validYMD y mo d && validHMS h mi s then
    pure (toNanos ⟨y, mo, d, h, mi, s, p.1⟩ - off * 1000000000)
  else none

/-- time.Parse with the `"2006-01-02 15:04:05"` layout: no zone; a dot or
comma fraction is still consumed; the whole string must be matched. -/
def parseSQLiteStr (cs : List Char) : Option Int := do
  let ((y, mo, d), cs) ← parseDateList cs
  let cs ← lit ' ' cs
  let ((h, mi, s), cs) ← parseClockList cs
  let p := parseFracWith (fun c => c == '.' || c == ',') cs
  match p.2 with
  | [] =>
    if validYMD y mo d && validHMS h mi s then
      pure (toNanos ⟨y, mo, d, h, mi, s, p.1⟩)
    else none
  | _ => none

/-- time.Parse with the `"2006-01-02T15:04:05Z"` layout: the `Z` is a
literal ending the string; a dot or comma fraction is still consumed. -/
def parseZLayoutStr (cs : List Char) : Option Int := do
  let ((y, mo, d), cs) ← parseDateList cs
  let cs ← lit 'T' cs
  let ((h, mi, s), cs) ← parseClockList cs
  let p := parseFracWith (fun c => c == '.' || c == ',') cs
  match p.2 with
  | ['Z'] =>
    if validYMD y mo d && validHMS h mi s then
      pure (toNanos ⟨y, mo, d, h, mi, s, p.1⟩)
    else none
  | _ => none

/-- The ordered format list of storage.go (`sqliteTimeFormats`): RFC 3339
with nanoseconds, RFC 3339, the plain SQLite form, and the literal-`Z`
form.  The first two layouts accept the same strings. -/
def sqliteTimeFormats : List (List Char → Option Int) :=
  [parseRFC3339Str, parseRFC3339Str, parseSQLiteStr, parseZLayoutStr]

/-- First format that parses, if any. -/
def firstSome : List (List Char → Option Int) → List Char → Option Int
  | [], _ => none
  | p :: ps, cs =>
    match p cs with
    | some t => some t
    | none => firstSome ps cs

/-- parseDBTime (storage.go): try the formats in order; on total failure
return the zero instant. -/
def parseDBTime (s : String) : Int :=
  match firstSome sqliteTimeFormats s.data with
  | some t => t
  | none => 0

/-! ## Derived notions used by the statements -/

/-- Open incidents a `service_state` row accounts for: none when the row is
missing or up, one when it is down. -/
def stateOpen (st : Storage) (url : String) : Nat :=
  match lookupA st.service_state url with
  | none => 0
  | some r => if r.is_up then 0 else 1

/-- The incident-consistency invariant of the store: for every service the
open-incident count matches its state row, and every recorded
`last_checked` instant is positive. -/
def StoreInv (st : Storage) : Prop :=
  (∀ url, openCount st url = stateOpen st url) ∧
  (∀ url r, lookupA st.service_state url = some r → 0 < r.last_checked)

/-- The DNS-label acceptance path of `isValidHostname`: 1–253 characters of
dot-separated labels, each 1–63 characters of alphanumerics or interior
hyphens. -/
def dnsLabelsOk (host : String) : Bool :=
  decide (0 < host.data.length) && decide (host.data.length ≤ 253) &&
  (splitDots host.data).all labelOk

/-! ## Association-list lemmas -/

theorem lookupA_append_single {α : Type} (l : List (String × α)) (k k' : String) (v : α) :
    lookupA (l ++ [(k, v)]) k' =
      ((lookupA l k').orElse (fun _ => if k == k' then some v else none)) := by
  induction l with
  | nil => simp [lookupA]
  | cons p l ih =>
    by_cases hpk : (p.1 == k') = true
    · simp [lookupA, hpk]
    · simp only [Bool.not_eq_true] at hpk
      simpa [lookupA, hpk] using ih

theorem lookupA_mapIf_other {α : Type} (l : List (String × α)) (k k' : String)
    (f : String × α → String × α) (hf : ∀ p, (f p).1 = k) (h : k' ≠ k) :
    lookupA (l.map (fun p => if p.1 == k then f p else p)) k' = lookupA l k' := by
  induction l with
  | nil => rfl
  | cons p l ih =>
    by_cases hpk : (p.1 == k) = true
    · have hkk : (k == k') = false := beq_eq_false_iff_ne.mpr (Ne.symm h)
      have hfk : ((f p).1 == k') = false := by rw [hf p]; exact hkk
      have hpk' : (p.1 == k') = false := by
        have hp1 : p.1 = k := by simpa using hpk
        rw [hp1]; exact hkk
      simp only [List.map_cons, hpk, if_true, lookupA, hfk, hpk',
        Bool.false_eq_true, if_false]
      exact ih
    · simp only [Bool.not_eq_true] at hpk
      simp only [List.map_cons, hpk, Bool.false_eq_true, if_false, lookupA]
      by_cases hpk' : (p.1 == k') = true
      · simp [hpk']
      · simp only [Bool.not_eq_true] at hpk'
        simp only [hpk', Bool.false_eq_true, if_false]
        exact ih

theorem lookupA_setA_self {α : Type} (l : List (String × α)) (k : String) (v : α) :
    lookupA (setA l k v) k = some v := by
  unfold setA
  by_cases hany : l.any (fun p => p.1 == k) = true
  · simp only [hany, if_true]
    induction l with
    | nil => simp at hany
    | cons p l ih =>
      simp only [List.any_cons, Bool.or_eq_true] at hany
      by_cases hpk : (p.1 == k) = true
      · simp [lookupA, List.map_cons, hpk]
      · simp only [hpk, Bool.false_eq_true, false_or] at hany
        simp only [Bool.not_eq_true] at hpk
        simp only [List.map_cons, hpk, Bool.false_eq_true, if_false, lookupA]
        exact ih hany
  · simp only [Bool.not_eq_true] at hany
    simp only [hany, Bool.false_eq_true, if_false]
    have hnone : lookupA l k = none := by
      induction l with
      | nil => rfl
      | cons p l ih =>
        simp only [List.any_cons, Bool.or_eq_false_iff] at hany
        simp only [lookupA, hany.1, Bool.false_eq_true, if_false]
        exact ih hany.2
    simp [lookupA_append_single, hnone]

theorem lookupA_setA_other {α : Type} (l : List (String × α)) (k k' : String) (v : α)
    (h : k' ≠ k) : lookupA (setA l k v) k' = lookupA l k' := by
  unfold setA
  by_cases hany : l.any (fun p => p.1 == k) = true
  · simp only [hany, if_true]
    exact lookupA_mapIf_other l k k' (fun _ => (k, v)) (fun _ => rfl) h
  · simp only [Bool.not_eq_true] at hany
    simp only [hany, Bool.false_eq_true, if_false]
    have hkk : (k == k') = false := beq_eq_false_iff_ne.mpr (Ne.symm h)
    rw [lookupA_append_single, hkk]
    cases lookupA l k' <;> rfl

/-! ## Store lemmas -/

theorem update_incidents (st : Storage) (url : String) (isUp : Bool) (now : Nat) :
    (UpdateServiceState st url isUp now).incidents = st.incidents := by
  unfold UpdateServiceState
  cases lookupA st.service_state url <;> rfl

theorem start_service_state (st : Storage) (url name msg : String) (now : Nat) :
    (StartIncident st url name msg now).service_state = st.service_state := rfl

theorem end_service_state (st : Storage) (url : String) (now : Nat) :
    (EndIncident st url now).service_state = st.service_state := rfl

theorem lookupA_mapIf_self {α : Type} (l : List (String × α)) (k : String) (g : α → α)
    {r : α} (h : lookupA l k = some r) :
    lookupA (l.map (fun p => if p.1 == k then (k, g p.2) else p)) k = some (g r) := by
  induction l with
  | nil => simp [lookupA] at h
  | cons p l ih =>
    by_cases hpk : (p.1 == k) = true
    · have hr : p.2 = r := by simpa [lookupA, hpk] using h
      simp [List.map_cons, hpk, lookupA, hr]
    · simp only [Bool.not_eq_true] at hpk
      have h2 : lookupA l k = some r := by simpa [lookupA, hpk] using h
      simp only [List.map_cons, hpk, Bool.false_eq_true, if_false, lookupA]
      exact ih h2

theorem lookupA_update_self (st : Storage) (url : String) (isUp : Bool) (now : Nat) :
    ∃ la, lookupA (UpdateServiceState st url isUp now).service_state url
      = some ⟨isUp, now, la⟩ := by
  unfold UpdateServiceState
  cases hlk : lookupA st.service_state url with
  | none =>
    refine ⟨none, ?_⟩
    simp [lookupA_append_single, hlk]
  | some r =>
    refine ⟨r.last_alert, ?_⟩
    exact lookupA_mapIf_self st.service_state url
      (fun rr => ⟨isUp, now, rr.last_alert⟩) hlk

theorem lookupA_update_other (st : Storage) (url : String) (isUp : Bool) (now : Nat)
    {u : String} (h : u ≠ url) :
    lookupA (UpdateServiceState st url isUp now).service_state u
      = lookupA st.service_state u := by
  unfold UpdateServiceState
  cases hlk : lookupA st.service_state url with
  | some r =>
    exact lookupA_mapIf_other st.service_state url u
      (fun p => (url, ⟨isUp, now, p.2.last_alert⟩)) (fun _ => rfl) h
  | none =>
    have hku : (url == u) = false := beq_eq_false_iff_ne.mpr (Ne.symm h)
    rw [lookupA_append_single, hku]
    cases lookupA st.service_state u <;> rfl

theorem openCount_start_self (st : Storage) (url name msg : String) (now : Nat) :
    openCount (StartIncident st url name msg now) url = openCount st url + 1 := by
  unfold openCount StartIncident
  simp [List.filter_append]

theorem openCount_start_other (st : Storage) (url name msg : String) (now : Nat)
    {u : String} (h : u ≠ url) :
    openCount (StartIncident st url name msg now) u = openCount st u := by
  unfold openCount StartIncident
  have : (url == u) = false := beq_eq_false_iff_ne.mpr (Ne.symm h)
  simp [List.filter_append, this]

theorem openCount_end_self (st : Storage) (url : String) (now : Nat) :
    openCount (EndIncident st url now) url = 0 := by
  unfold openCount EndIncident
  rw [← List.countP_eq_length_filter, List.countP_map, List.countP_eq_zero]
  intro i _
  by_cases hcond : (i.service_url == url && i.ended_at == none) = true
  · simp [Function.comp, hcond]
  · simp only [Bool.not_eq_true] at hcond
    simp [Function.comp, hcond]

theorem openCount_end_other (st : Storage) (url : String) (now : Nat)
    {u : String} (h : u ≠ url) :
    openCount (EndIncident st url now) u = openCount st u := by
  unfold openCount EndIncident
  rw [← List.countP_eq_length_filter, ← List.countP_eq_length_filter, List.countP_map]
  apply List.countP_congr
  intro i _
  by_cases hcond : (i.service_url == url && i.ended_at == none) = true
  · have hi : i.service_url = url := by
      have := (Bool.and_eq_true _ _).mp hcond
      simpa using this.1
    have hiu : (i.service_url == u) = false := by
      rw [hi]
      exact beq_eq_false_iff_ne.mpr (Ne.symm h)
    simp [Function.comp, hcond, hiu]
  · simp only [Bool.not_eq_true] at hcond
    simp [Function.comp, hcond]

theorem stateOpen_le_one (st : Storage) (u : String) : stateOpen st u ≤ 1 := by
  unfold stateOpen
  cases lookupA st.service_state u with
  | none => exact Nat.zero_le 1
  | some r => by_cases hr : r.is_up = true <;> simp [hr]

/-- Invariant transfer through the final `UpdateServiceState` of a
transition, given the open-incident counts already match the state the
upsert will install. -/
theorem storeInv_update_of (st : Storage) (url : String) (isUp : Bool) (now : Nat)
    (hnow : 0 < now)
    (hcnt : ∀ u, openCount st u = if u = url then (if isUp then 0 else 1) else stateOpen st u)
    (hpos : ∀ u r, u ≠ url → lookupA st.service_state u = some r → 0 < r.last_checked) :
    StoreInv (UpdateServiceState st url isUp now) := by
  obtain ⟨la, hla⟩ := lookupA_update_self st url isUp now
  constructor
  · intro u
    have hc : openCount (UpdateServiceState st url isUp now) u = openCount st u := by
      unfold openCount
      rw [update_incidents]
    rw [hc, hcnt u]
    by_cases hu : u = url
    · subst hu
      simp [stateOpen, hla]
    · have := lookupA_update_other st url isUp now hu
      simp [stateOpen, hu, this]
  · intro u r hlk
    by_cases hu : u = url
    · subst hu
      rw [hla] at hlk
      cases hlk
      exact hnow
    · rw [lookupA_update_other st url isUp now hu] at hlk
      exact hpos u r hu hlk

/-- One `RecordStatusTransition` call preserves the store invariant and
leaves the service with a fresh state row carrying the new `is_up`. -/
theorem record_post (st : Storage) (url name msg : String) (isUp : Bool) (now : Nat)
    (hInv : StoreInv st) (hnow : 0 < now) :
    StoreInv (RecordStatusTransition st url name isUp msg now).2 ∧
    ∃ la, lookupA (RecordStatusTransition st url name isUp msg now).2.service_state url
      = some ⟨isUp, now, la⟩ := by
  obtain ⟨hcount, hpos⟩ := hInv
  cases hlk : lookupA st.service_state url with
  | none =>
    have hopen : openCount st url = 0 := by
      rw [hcount url]
      simp [stateOpen, hlk]
    cases isUp with
    | true =>
      have hred : (RecordStatusTransition st url name true msg now).2
          = UpdateServiceState st url true now := by
        simp [RecordStatusTransition, GetServiceState, hlk]
      rw [hred]
      refine ⟨?_, lookupA_update_self st url true now⟩
      apply storeInv_update_of st url true now hnow
      · intro u
        by_cases hu : u = url
        · subst hu; simpa using hopen
        · simp [hu, hcount u]
      · intro u r _ hl
        exact hpos u r hl
    | false =>
      have hred : (RecordStatusTransition st url name false msg now).2
          = UpdateServiceState (StartIncident st url name msg now) url false now := by
        simp [RecordStatusTransition, GetServiceState, hlk]
      rw [hred]
      refine ⟨?_, lookupA_update_self _ url false now⟩
      apply storeInv_update_of _ url false now hnow
      · intro u
        by_cases hu : u = url
        · subst hu
          simp [openCount_start_self, hopen]
        · rw [openCount_start_other st url name msg now hu]
          simp [hu, hcount u, stateOpen, start_service_state]
      · intro u r _ hl
        rw [start_service_state] at hl
        exact hpos u r hl
  | some r =>
    have hr0 : (r.last_checked == 0) = false :=
      beq_eq_false_iff_ne.mpr (Nat.pos_iff_ne_zero.mp (hpos url r hlk))
    have hopen : openCount st url = if r.is_up then 0 else 1 := by
      rw [hcount url]
      simp [stateOpen, hlk]
    cases hru : r.is_up with
    | true =>
      cases isUp with
      | true =>
        have hred : (RecordStatusTransition st url name true msg now).2
            = UpdateServiceState st url true now := by
          simp [RecordStatusTransition, GetServiceState, hlk, hr0, hru]
        rw [hred]
        refine ⟨?_, lookupA_update_self st url true now⟩
        apply storeInv_update_of st url true now hnow
        · intro u
          by_cases hu : u = url
          · subst hu; simp [hopen, hru]
          · simp [hu, hcount u]
        · intro u rr _ hl
          exact hpos u rr hl
      | false =>
        have hred : (RecordStatusTransition st url name false msg now).2
            = UpdateServiceState (StartIncident st url name msg now) url false now := by
          simp [RecordStatusTransition, GetServiceState, hlk, hr0, hru]
        rw [hred]
        refine ⟨?_, lookupA_update_self _ url false now⟩
        apply storeInv_update_of _ url false now hnow
        · intro u
          by_cases hu : u = url
          · subst hu
            simp [openCount_start_self, hopen, hru]
          · rw [openCount_start_other st url name msg now hu]
            simp [hu, hcount u, stateOpen, start_service_state]
        · intro u rr _ hl
          rw [start_service_state] at hl
          exact hpos u rr hl
    | false =>
      cases isUp with
      | true =>
        have hred : (RecordStatusTransition st url name true msg now).2
            = UpdateServiceState (EndIncident st url now) url true now := by
          simp [RecordStatusTransition, GetServiceState, hlk, hr0, hru]
        rw [hred]
        refine ⟨?_, lookupA_update_self _ url true now⟩
        apply storeInv_update_of _ url true now hnow
        · intro u
          by_cases hu : u = url
          · subst hu
            simp [openCount_end_self]
          · rw [openCount_end_other st url now hu]
            simp [hu, hcount u, stateOpen, end_service_state]
        · intro u rr _ hl
          rw [end_service_state] at hl
          exact hpos u rr hl
      | false =>
        have hred : (RecordStatusTransition st url name false msg now).2
            = UpdateServiceState st url false now := by
          simp [RecordStatusTransition, GetServiceState, hlk, hr0, hru]
        rw [hred]
        refine ⟨?_, lookupA_update_self st url false now⟩
        apply storeInv_update_of st url false now hnow
        · intro u
          by_cases hu : u = url
          · subst hu; simp [hopen, hru]
          · simp [hu, hcount u]
        · intro u rr _ hl
          exact hpos u rr hl

/-- Every reachable store satisfies the incident-consistency invariant. -/
theorem reachable_storeInv {st : Storage} (h : Reachable st) : StoreInv st := by
  induction h with
  | init =>
    constructor
    · intro u; rfl
    · intro u r hl
      simp [emptyStorage, lookupA] at hl
  | step st url name msg isUp now _ hnow ih =>
    exact (record_post st url name msg isUp now ih hnow).1

/-! ## Claim C1 -/

/-- C1: for every store reachable by `record_transition` calls from an empty
store, after a further `record_transition(S, _, is_up, _)` call the
service-state row of S holds the new `is_up`; `is_up` implies no open
incident for S; `¬is_up` implies exactly one open incident for S; and every
service identity has at most one incident row with NULL `ended_at`. -/
theorem recordStatusTransition_incident_consistency
    (st : Storage) (url name msg : String) (isUp : Bool) (now : Nat)
    (hst : Reachable st) (hnow : 0 < now) :
    (∃ r, lookupA (RecordStatusTransition st url name isUp msg now).2.service_state url
        = some r ∧ r.is_up = isUp) ∧
    (isUp = true → openCount (RecordStatusTransition st url name isUp msg now).2 url = 0) ∧
    (isUp = false → openCount (RecordStatusTransition st url name isUp msg now).2 url = 1) ∧
    (∀ u, openCount (RecordStatusTransition st url name isUp msg now).2 u ≤ 1) := by
  obtain ⟨hInv', la, hla⟩ := record_post st url name msg isUp now (reachable_storeInv hst) hnow
  refine ⟨⟨⟨isUp, now, la⟩, hla, rfl⟩, ?_, ?_, ?_⟩
  · intro hu
    subst hu
    rw [hInv'.1 url]
    simp [stateOpen, hla]
  · intro hu
    subst hu
    rw [hInv'.1 url]
    simp [stateOpen, hla]
  · intro u
    rw [hInv'.1 u]
    exact stateOpen_le_one _ u

theorem recordStatusTransition_incident_consistency_witness :
    openCount (RecordStatusTransition emptyStorage "http://a" "a" false "down" 1).2 "http://a"
      = 1 :=
  (recordStatusTransition_incident_consistency emptyStorage "http://a" "a" "down" false 1
    Reachable.init Nat.one_pos).2.2.1 rfl

/-! ## Claim C5 -/

/-- C5: on the first-ever observation of a service (no prior service-state
row), observing down opens a new incident carrying the message and returns
`transitioned = true`, observing up opens nothing and returns
`transitioned = false`; an incident is opened iff the first observation is
down. -/
theorem recordStatusTransition_first_observation
    (st : Storage) (url name msg : String) (now : Nat)
    (hnone : lookupA st.service_state url = none) :
    (RecordStatusTransition st url name false msg now).1 = true ∧
    (RecordStatusTransition st url name false msg now).2.incidents
      = st.incidents ++ [⟨url, name, now, none, msg⟩] ∧
    (RecordStatusTransition st url name true msg now).1 = false ∧
    (RecordStatusTransition st url name true msg now).2.incidents = st.incidents ∧
    (∀ isUp : Bool, (RecordStatusTransition st url name isUp msg now).1 = !isUp) := by
  have hdown : RecordStatusTransition st url name false msg now
      = (true, UpdateServiceState (StartIncident st url name msg now) url false now) := by
    simp [RecordStatusTransition, GetServiceState, hnone]
  have hup : RecordStatusTransition st url name true msg now
      = (false, UpdateServiceState st url true now) := by
    simp [RecordStatusTransition, GetServiceState, hnone]
  refine ⟨by rw [hdown], ?_, by rw [hup], ?_, ?_⟩
  · rw [hdown]
    rw [show (true, UpdateServiceState (StartIncident st url name msg now) url false now).2
        = UpdateServiceState (StartIncident st url name msg now) url false now from rfl]
    rw [update_incidents]
    rfl
  · rw [hup]
    rw [show (false, UpdateServiceState st url true now).2
        = UpdateServiceState st url true now from rfl]
    rw [update_incidents]
  · intro isUp
    cases isUp
    · rw [hdown]
      rfl
    · rw [hup]
      rfl

theorem recordStatusTransition_first_observation_witness :
    (RecordStatusTransition emptyStorage "http://x" "X" false "boom" 7).1 = true ∧
    (RecordStatusTransition emptyStorage "http://x" "X" false "boom" 7).2.incidents
      = [⟨"http://x", "X", 7, none, "boom"⟩] := by
  have h := recordStatusTransition_first_observation emptyStorage "http://x" "X" "boom" 7 rfl
  exact ⟨h.1, h.2.1⟩

/-! ## Claim C10 -/

/-- C10: `GetServiceState` of a missing row reports `is_up = false`, the
zero instant, a nil `last_alert` and no error; and on every reachable store
a zero `last_checked` from `GetServiceState` happens exactly when the row
is missing, which is the condition `RecordStatusTransition` keys its
first-observation branch on. -/
theorem getServiceState_missing_row_contract
    (st : Storage) (url : String) (hst : Reachable st) :
    (lookupA st.service_state url = none →
      GetServiceState st url = .ok (false, 0, none)) ∧
    (∀ u lc la, GetServiceState st url = .ok (u, lc, la) →
      (lc = 0 ↔ lookupA st.service_state url = none)) := by
  constructor
  · intro h
    simp [GetServiceState, h]
  · intro u lc la hok
    cases hlk : lookupA st.service_state url with
    | none =>
      have : lc = 0 := by
        simp [GetServiceState, hlk] at hok
        exact hok.2.1.symm
      simp [this, hlk]
    | some r =>
      have hpos := (reachable_storeInv hst).2 url r hlk
      have hlc : lc = r.last_checked := by
        simp [GetServiceState, hlk] at hok
        exact hok.2.1.symm
      constructor
      · intro h0
        rw [hlc] at h0
        omega
      · intro hn
        exact Option.noConfusion hn

theorem getServiceState_missing_row_contract_witness :
    GetServiceState emptyStorage "s" = .ok (false, 0, none) :=
  (getServiceState_missing_row_contract emptyStorage "s" Reachable.init).1 rfl

/-! ## Notification manager lemmas -/

theorem checkAndNotify_spec (nm : NMState) (c : NMCall) :
    CheckAndNotify nm c =
      if lookupA nm.serviceState c.url == some c.isUp then
        (false, { nm with serviceState := setA nm.serviceState c.url c.isUp })
      else if (match lookupA nm.lastAlert c.url with
               | some t => decide (c.now - t < nm.cooldown)
               | none => false) then
        (false, { nm with serviceState := setA nm.serviceState c.url c.isUp })
      else if c.results.any id then
        (true, { nm with serviceState := setA nm.serviceState c.url c.isUp,
                         lastAlert := setA nm.lastAlert c.url c.now })
      else
        (false, { nm with serviceState := setA nm.serviceState c.url c.isUp }) := rfl

theorem checkAndNotify_cooldown_eq (nm : NMState) (c : NMCall) :
    (CheckAndNotify nm c).2.cooldown = nm.cooldown := by
  rw [checkAndNotify_spec]
  split_ifs <;> rfl

theorem checkAndNotify_true_lastAlert (nm : NMState) (c : NMCall)
    (h : (CheckAndNotify nm c).1 = true) :
    (CheckAndNotify nm c).2.lastAlert = setA nm.lastAlert c.url c.now := by
  rw [checkAndNotify_spec] at h ⊢
  split_ifs at h ⊢
  rfl

theorem checkAndNotify_true_gap (nm : NMState) (c : NMCall) (t : Int)
    (h : (CheckAndNotify nm c).1 = true)
    (ht : lookupA nm.lastAlert c.url = some t) :
    nm.cooldown ≤ c.now - t := by
  rw [checkAndNotify_spec] at h
  split_ifs at h with h1 h2 h3
  rw [ht] at h2
  simp at h2
  omega

theorem checkAndNotify_lastAlert_after (nm : NMState) (c : NMCall) (S : String) :
    lookupA (CheckAndNotify nm c).2.lastAlert S = lookupA nm.lastAlert S ∨
    (c.url = S ∧ lookupA (CheckAndNotify nm c).2.lastAlert S = some c.now) := by
  rw [checkAndNotify_spec]
  split_ifs
  · exact Or.inl rfl
  · exact Or.inl rfl
  · by_cases hS : c.url = S
    · refine Or.inr ⟨hS, ?_⟩
      subst hS
      exact lookupA_setA_self nm.lastAlert c.url c.now
    · exact Or.inl (lookupA_setA_other nm.lastAlert c.url S c.now (fun he => hS he.symm))
  · exact Or.inl rfl

theorem runNM_append (nm : NMState) (l1 l2 : List NMCall) :
    runNM nm (l1 ++ l2) = runNM (runNM nm l1) l2 := by
  induction l1 generalizing nm with
  | nil => rfl
  | cons c l1 ih => simp [runNM, ih]

theorem runNM_cooldown (nm : NMState) (cs : List NMCall) :
    (runNM nm cs).cooldown = nm.cooldown := by
  induction cs generalizing nm with
  | nil => rfl
  | cons c cs ih => rw [runNM, ih, checkAndNotify_cooldown_eq]

theorem runNM_lastAlert_lb (S : String) (t0 : Int) (cs : List NMCall) (nm : NMState)
    (h : ∃ t, lookupA nm.lastAlert S = some t ∧ t0 ≤ t)
    (hall : ∀ c ∈ cs, t0 ≤ c.now) :
    ∃ t, lookupA (runNM nm cs).lastAlert S = some t ∧ t0 ≤ t := by
  induction cs generalizing nm with
  | nil => exact h
  | cons c cs ih =>
    obtain ⟨t, ht, htt⟩ := h
    rw [runNM]
    apply ih
    · rcases checkAndNotify_lastAlert_after nm c S with h2 | ⟨_, h2⟩
      · exact ⟨t, by rw [h2]; exact ht, htt⟩
      · exact ⟨c.now, h2, hall c (List.mem_cons_self c cs)⟩
    · intro c' hc'
      exact hall c' (List.mem_cons_of_mem c hc')

/-! ## Claim C2 -/

/-- C2: on one notification manager started fresh with a given cooldown, any
two `CheckAndNotify` calls for the same service identity that both return
`true` within a chronological trace are separated by at least the
cooldown. -/
theorem checkAndNotify_cooldown_separation
    (cooldown : Int) (l1 l2 : List NMCall) (ci cj : NMCall) (S : String)
    (hch : Chrono (l1 ++ ci :: l2 ++ [cj]))
    (hiS : ci.url = S) (hjS : cj.url = S)
    (hi : (CheckAndNotify (runNM (NewNotificationManager cooldown) l1) ci).1 = true)
    (hj : (CheckAndNotify (runNM (NewNotificationManager cooldown) (l1 ++ ci :: l2)) cj).1
      = true) :
    cooldown ≤ cj.now - ci.now := by
  subst hiS
  have hjS' : cj.url = ci.url := hjS
  have hrun : runNM (NewNotificationManager cooldown) (l1 ++ ci :: l2)
      = runNM (CheckAndNotify (runNM (NewNotificationManager cooldown) l1) ci).2 l2 := by
    rw [runNM_append]
    rfl
  have hla : lookupA (CheckAndNotify (runNM (NewNotificationManager cooldown) l1) ci).2.lastAlert
      ci.url = some ci.now := by
    rw [checkAndNotify_true_lastAlert _ _ hi]
    exact lookupA_setA_self _ ci.url ci.now
  have hsuffix : Chrono (ci :: (l2 ++ [cj])) := by
    have hs : (ci :: (l2 ++ [cj])).Sublist (l1 ++ ci :: l2 ++ [cj]) := by
      have : l1 ++ ci :: l2 ++ [cj] = l1 ++ (ci :: (l2 ++ [cj])) := by simp
      rw [this]
      exact List.sublist_append_right l1 _
    exact List.Pairwise.sublist hs hch
  have hhead := (List.pairwise_cons.mp hsuffix).1
  have hl2 : ∀ c ∈ l2, ci.now ≤ c.now := by
    intro c hc
    exact hhead c (List.mem_append_left _ hc)
  obtain ⟨t, ht, htt⟩ := runNM_lastAlert_lb ci.url ci.now l2 _
    ⟨ci.now, hla, le_refl _⟩ hl2
  have hcool : (runNM (CheckAndNotify (runNM (NewNotificationManager cooldown) l1) ci).2
      l2).cooldown = cooldown := by
    rw [runNM_cooldown, checkAndNotify_cooldown_eq, runNM_cooldown]
    rfl
  have hgap := checkAndNotify_true_gap
    (runNM (CheckAndNotify (runNM (NewNotificationManager cooldown) l1) ci).2 l2) cj t
    (by rw [← hrun]; exact hj) (by rw [hjS']; exact ht)
  rw [hcool] at hgap
  omega

theorem checkAndNotify_cooldown_separation_witness :
    (10 : Int) ≤ (100 : Int) - 0 :=
  checkAndNotify_cooldown_separation 10 [] [] ⟨"s", false, 0, [true]⟩
    ⟨"s", true, 100, [true]⟩ "s"
    (by unfold Chrono; simp [List.pairwise_cons]) rfl rfl
    (by decide) (by decide)

/-! ## Claim C3 -/

theorem checkAndNotifyStored_spec (nm : NMStateS) (url : String) (isUp : Bool) (now : Int) :
    CheckAndNotifyStored nm url isUp now =
      if lookupA nm.serviceState url == some isUp then
        (false, { nm with serviceState := setA nm.serviceState url isUp })
      else if (match lookupA nm.lastAlert url with
               | some t => decide (now - t < nm.cooldown)
               | none => false) then
        (false, { nm with serviceState := setA nm.serviceState url isUp })
      else if (nm.notifiers.map (fun n => n (mkAlert url isUp now))).any id then
        (true, { nm with serviceState := setA nm.serviceState url isUp,
                         lastAlert := setA nm.lastAlert url now,
                         storage := nm.storage.map (fun l => l ++ [mkAlert url isUp now]) })
      else
        (false, { nm with serviceState := setA nm.serviceState url isUp }) := rfl

/-- C3: when the stored-variant `CheckAndNotify` reaches the fan-out step
(an edge was observed and the cooldown passed), the alert is offered to
every configured notifier; the call returns `true` iff at least one
notifier succeeded; on success the alert instant is remembered and the
alert is appended to the attached store; when all notifiers fail,
`last_alert` and the store are unchanged. -/
theorem checkAndNotifyStored_fanout
    (nm : NMStateS) (url : String) (isUp : Bool) (now : Int)
    (hedge : (lookupA nm.serviceState url == some isUp) = false)
    (hcool : (match lookupA nm.lastAlert url with
              | some t => decide (now - t < nm.cooldown)
              | none => false) = false) :
    ((CheckAndNotifyStored nm url isUp now).1
        = (nm.notifiers.map (fun n => n (mkAlert url isUp now))).any id) ∧
    ((CheckAndNotifyStored nm url isUp now).1 = true ↔
        ∃ n ∈ nm.notifiers, n (mkAlert url isUp now) = true) ∧
    ((CheckAndNotifyStored nm url isUp now).1 = true →
        (CheckAndNotifyStored nm url isUp now).2.lastAlert = setA nm.lastAlert url now ∧
        (CheckAndNotifyStored nm url isUp now).2.storage
          = nm.storage.map (fun l => l ++ [mkAlert url isUp now])) ∧
    ((CheckAndNotifyStored nm url isUp now).1 = false →
        (CheckAndNotifyStored nm url isUp now).2.lastAlert = nm.lastAlert ∧
        (CheckAndNotifyStored nm url isUp now).2.storage = nm.storage) := by
  rw [checkAndNotifyStored_spec, hedge, hcool]
  simp only [Bool.false_eq_true, if_false]
  by_cases hsent : (nm.notifiers.map (fun n => n (mkAlert url isUp now))).any id = true
  · rw [if_pos hsent]
    refine ⟨by rw [hsent], ?_, ?_, ?_⟩
    · simp only [hsent]
      constructor
      · intro _
        have := List.any_eq_true.mp hsent
        obtain ⟨x, hx, hid⟩ := this
        obtain ⟨n, hn, rfl⟩ := List.mem_map.mp hx
        exact ⟨n, hn, hid⟩
      · intro _
        trivial
    · intro _
      exact ⟨rfl, rfl⟩
    · intro habs
      cases habs
  · rw [if_neg hsent]
    simp only [Bool.not_eq_true] at hsent
    refine ⟨by rw [hsent], ?_, ?_, ?_⟩
    · constructor
      · intro habs
        cases habs
      · intro ⟨n, hn, hval⟩
        exfalso
        have : (nm.notifiers.map (fun n => n (mkAlert url isUp now))).any id = true :=
          List.any_eq_true.mpr ⟨n (mkAlert url isUp now),
            List.mem_map.mpr ⟨n, hn, rfl⟩, hval⟩
        rw [hsent] at this
        cases this
    · intro habs
      cases habs
    · intro _
      exact ⟨rfl, rfl⟩

theorem checkAndNotifyStored_fanout_witness :
    (CheckAndNotifyStored ⟨[fun _ => true], 300, [], [], some []⟩ "s" false 5).1 = true ∧
    (CheckAndNotifyStored ⟨[fun _ => true], 300, [], [], some []⟩ "s" false 5).2.storage
      = some [mkAlert "s" false 5] := by
  have h := checkAndNotifyStored_fanout ⟨[fun _ => true], 300, [], [], some []⟩ "s" false 5
    rfl rfl
  have h1 : (CheckAndNotifyStored ⟨[fun _ => true], 300, [], [], some []⟩ "s" false 5).1
      = true := by
    rw [h.1]
    rfl
  refine ⟨h1, ?_⟩
  rw [(h.2.2.1 h1).2]
  rfl

/-! ## Claim C4 -/

/-- C4: a non-empty maintenance message makes the sweep skip probing
entirely: every configured service is reported up with response time 0,
the degraded and down buckets are empty, no store or notification calls
happen, and the overall status is maintenance — whatever the probes would
have returned. -/
theorem checkAllServices_maintenance
    (services : List MockPinger) (sa na : Bool) (msg : String) (hmsg : msg ≠ "") :
    CheckAllServices services sa na msg
      = { emptySweep with up := services.map (fun p => ⟨displayName p.service, 0⟩) } ∧
    DetermineOverallStatus msg
      (CheckAllServices services sa na msg).degraded
      (CheckAllServices services sa na msg).down = "maintenance" := by
  have hne : (msg != "") = true := by simpa using hmsg
  constructor
  · simp [CheckAllServices, hne]
  · simp [DetermineOverallStatus, hne]

theorem checkAllServices_maintenance_witness :
    CheckAllServices [⟨{ url := "http://a" }, ⟨some .unavailable, 5⟩⟩] true true "maint"
      = { emptySweep with up := [⟨"http://a", 0⟩] } := by
  rw [(checkAllServices_maintenance [⟨{ url := "http://a" }, ⟨some .unavailable, 5⟩⟩]
    true true "maint" (by decide)).1]
  rfl

/-! ## Claim C6 -/

/-- C6: a script probe's exit status 0 is up (nil error), exit status 80 is
the degraded sentinel, and any other exit, signal, deadline expiry or
start failure is service-unavailable; and the sweep loop reports a
degraded outcome to the notification manager as `is_up = true` while
placing the service in the degraded bucket. -/
theorem scriptStatus_classification_and_degraded_flow :
    scriptStatus (.exited 0) = none ∧
    scriptStatus (.exited 80) = some .degraded ∧
    (∀ e : Nat, e ≠ 0 → e ≠ 80 → scriptStatus (.exited e) = some .unavailable) ∧
    scriptStatus .signaled = some .unavailable ∧
    scriptStatus .deadlineExceeded = some .unavailable ∧
    scriptStatus .startFailed = some .unavailable ∧
    (∀ (sa : Bool) (acc : SweepAcc) (p : MockPinger),
      p.result.err = some .degraded →
      (checkOne sa true acc p).degraded
          = setA acc.degraded (displayName p.service)
              ⟨defaultOutageMinutes, p.result.responseTime⟩ ∧
      (checkOne sa true acc p).notifies = acc.notifies ++ [(p.service.url, true)] ∧
      (checkOne sa true acc p).up = acc.up ∧
      (checkOne sa true acc p).down = acc.down) := by
  refine ⟨rfl, rfl, ?_, rfl, rfl, rfl, ?_⟩
  · intro e h0 h80
    cases e with
    | zero => exact absurd rfl h0
    | succ n =>
      have hbeq : ((n + 1 : Nat) == scriptExitCodeDegraded) = false :=
        beq_eq_false_iff_ne.mpr (by simpa [scriptExitCodeDegraded] using h80)
      simp [scriptStatus, hbeq]
  · intro sa acc p hdeg
    cases sa <;> simp [checkOne, hdeg, IsDegraded]

theorem scriptStatus_classification_and_degraded_flow_witness :
    scriptStatus (.exited 7) = some .unavailable ∧
    (checkOne false true emptySweep ⟨{ name := "svc" }, ⟨some .degraded, 3⟩⟩).degraded
      = [("svc", ⟨60, 3⟩)] ∧
    (checkOne false true emptySweep ⟨{ name := "svc" }, ⟨some .degraded, 3⟩⟩).notifies
      = [("", true)] := by
  have h := scriptStatus_classification_and_degraded_flow
  have hrun := h.2.2.2.2.2.2 false emptySweep ⟨{ name := "svc" }, ⟨some .degraded, 3⟩⟩ rfl
  refine ⟨h.2.2.1 7 (by decide) (by decide), ?_, ?_⟩
  · rw [hrun.1]
    rfl
  · rw [hrun.2.1]
    rfl

/-! ## Claim C9 -/

/-- C9 as stated fails on the code: two services that both probe as not-up
and share a display name, one degraded and one down, land in different
buckets, so nothing is overwritten and the sweep reports as many services
as were probed. -/
theorem checkAllServices_mixed_not_up_no_collapse :
    reportedCount (CheckAllServices
        [⟨{ url := "http://a", name := "n" }, ⟨some .degraded, 1⟩⟩,
         ⟨{ url := "http://b", name := "n" }, ⟨some .unavailable, 2⟩⟩] false false "") = 2 ∧
    (CheckAllServices
        [⟨{ url := "http://a", name := "n" }, ⟨some .degraded, 1⟩⟩,
         ⟨{ url := "http://b", name := "n" }, ⟨some .unavailable, 2⟩⟩] false false "").degraded
      = [("n", ⟨60, 1⟩)] ∧
    (CheckAllServices
        [⟨{ url := "http://a", name := "n" }, ⟨some .degraded, 1⟩⟩,
         ⟨{ url := "http://b", name := "n" }, ⟨some .unavailable, 2⟩⟩] false false "").down
      = [("n", ⟨60, 2⟩)] := by
  refine ⟨rfl, rfl, rfl⟩

/-- C9 (amended): when the two name-sharing not-up services land in the
same bucket — both down or both degraded — the later probe's entry
overwrites the earlier and the sweep reports fewer services than were
probed; the up bucket is an ordered list that keeps duplicates. -/
theorem checkAllServices_same_bucket_overwrites
    (u1 u2 n : String) (rt1 rt2 : Int) (hn : n ≠ "") :
    (CheckAllServices
        [⟨{ url := u1, name := n }, ⟨some .unavailable, rt1⟩⟩,
         ⟨{ url := u2, name := n }, ⟨some .unavailable, rt2⟩⟩] false false "").down
      = [(n, ⟨defaultOutageMinutes, rt2⟩)] ∧
    reportedCount (CheckAllServices
        [⟨{ url := u1, name := n }, ⟨some .unavailable, rt1⟩⟩,
         ⟨{ url := u2, name := n }, ⟨some .unavailable, rt2⟩⟩] false false "") < 2 ∧
    (CheckAllServices
        [⟨{ url := u1, name := n }, ⟨some .degraded, rt1⟩⟩,
         ⟨{ url := u2, name := n }, ⟨some .degraded, rt2⟩⟩] false false "").degraded
      = [(n, ⟨defaultOutageMinutes, rt2⟩)] ∧
    (CheckAllServices
        [⟨{ url := u1, name := n }, ⟨none, rt1⟩⟩,
         ⟨{ url := u2, name := n }, ⟨none, rt2⟩⟩] false false "").up
      = [⟨n, rt1⟩, ⟨n, rt2⟩] := by
  have hdn : ∀ u : String, displayName { url := u, name := n } = n := by
    intro u
    simp [displayName, hn]
  have hb : (n != "") = true := by simpa using hn
  refine ⟨?_, ?_, ?_, ?_⟩
  · simp [CheckAllServices, checkOne, IsDegraded, emptySweep, hdn, setA,
      defaultOutageMinutes]
  · simp [CheckAllServices, checkOne, IsDegraded, emptySweep, hdn, setA,
      reportedCount, defaultOutageMinutes]
  · simp [CheckAllServices, checkOne, IsDegraded, emptySweep, hdn, setA,
      defaultOutageMinutes]
  · simp [CheckAllServices, checkOne, IsDegraded, emptySweep, hdn, setA,
      defaultOutageMinutes]

theorem checkAllServices_same_bucket_overwrites_witness :
    (CheckAllServices
        [⟨{ url := "a", name := "n" }, ⟨some .unavailable, 1⟩⟩,
         ⟨{ url := "b", name := "n" }, ⟨some .unavailable, 2⟩⟩] false false "").down
      = [("n", ⟨defaultOutageMinutes, 2⟩)] :=
  (checkAllServices_same_bucket_overwrites "a" "b" "n" 1 2 (by decide)).1

/-! ## Hostname-validation lemmas -/

theorem isValidHostname_eq (host : String) :
    isValidHostname host = (parseIP host.data || dnsLabelsOk host) := rfl

theorem alpha_not_shellMeta {c : Char} (h : isAlphaCh c = true) : isShellMeta c = false := by
  simp only [isAlphaCh, Bool.or_eq_true, Bool.and_eq_true, decide_eq_true_eq] at h
  simp only [isShellMeta, List.mem_cons, List.not_mem_nil, or_false, decide_eq_false_iff_not]
  omega

theorem digit_not_shellMeta {c : Char} (h : isDigitCh c = true) : isShellMeta c = false := by
  simp only [isDigitCh, Bool.and_eq_true, decide_eq_true_eq] at h
  simp only [isShellMeta, List.mem_cons, List.not_mem_nil, or_false, decide_eq_false_iff_not]
  omega

theorem hex_not_shellMeta {c : Char} (h : isHexCh c = true) : isShellMeta c = false := by
  simp only [isHexCh, isDigitCh, Bool.or_eq_true, Bool.and_eq_true, decide_eq_true_eq] at h
  simp only [isShellMeta, List.mem_cons, List.not_mem_nil, or_false, decide_eq_false_iff_not]
  omega

theorem hyphen_not_shellMeta : isShellMeta '-' = false := by decide

theorem dot_not_shellMeta : isShellMeta '.' = false := by decide

theorem colon_not_shellMeta : isShellMeta ':' = false := by decide

theorem splitDots_ne_nil (cs : List Char) : splitDots cs ≠ [] := by
  cases cs with
  | nil => simp [splitDots]
  | cons c rest =>
    simp only [splitDots]
    cases splitDots rest with
    | nil => simp
    | cons p ps =>
      by_cases hc : (c == '.') = true <;> simp [hc]

theorem splitDots_member (cs : List Char) :
    ∀ c ∈ cs, c = '.' ∨ ∃ p ∈ splitDots cs, c ∈ p := by
  induction cs with
  | nil => intro c hc; cases hc
  | cons c0 rest ih =>
    intro c hc
    rcases List.mem_cons.mp hc with rfl | hmem
    · by_cases h0 : (c == '.') = true
      · exact Or.inl (by simpa using h0)
      · right
        cases hsplit : splitDots rest with
        | nil => exact absurd hsplit (splitDots_ne_nil rest)
        | cons p ps =>
          refine ⟨c :: p, ?_, List.mem_cons_self c p⟩
          simp [splitDots, hsplit, h0]
    · rcases ih c hmem with h | ⟨p', hp', hcp'⟩
      · exact Or.inl h
      · right
        cases hsplit : splitDots rest with
        | nil => exact absurd hsplit (splitDots_ne_nil rest)
        | cons p ps =>
          rw [hsplit] at hp'
          by_cases h0 : (c0 == '.') = true
          · refine ⟨p', ?_, hcp'⟩
            simp only [splitDots, hsplit, h0, if_true]
            exact List.mem_cons_of_mem _ hp'
          · rcases List.mem_cons.mp hp' with rfl | hps
            · refine ⟨c0 :: p', ?_, List.mem_cons_of_mem c0 hcp'⟩
              simp [splitDots, hsplit, h0]
            · refine ⟨p', ?_, hcp'⟩
              simp only [splitDots, hsplit, h0, Bool.false_eq_true, if_false]
              exact List.mem_cons_of_mem _ hps

theorem labelOk_chars {part : List Char} (h : labelOk part = true) :
    ∀ c ∈ part, isAlphaCh c = true ∨ isDigitCh c = true ∨ c = '-' := by
  intro c hc
  simp only [labelOk, Bool.and_eq_true, List.all_eq_true, decide_eq_true_eq] at h
  obtain ⟨i, hi, hget⟩ := List.mem_iff_getElem.mp hc
  have hmem : (i, c) ∈ part.enum := by
    rw [← hget]
    exact List.mem_enum_iff_getElem?.mpr (by simp [hi])
  have := h.2 (i, c) hmem
  rcases Bool.or_eq_true _ _ |>.mp this with ha | hrest
  · rcases Bool.or_eq_true _ _ |>.mp ha with h1 | h2
    · exact Or.inl h1
    · exact Or.inr (Or.inl h2)
  · right; right
    have := (Bool.and_eq_true _ _).mp hrest
    have := (Bool.and_eq_true _ _).mp this.1
    simpa using this.1

theorem dnsLabelsOk_chars {host : String} (h : dnsLabelsOk host = true) :
    ∀ c ∈ host.data, isAlphaCh c = true ∨ isDigitCh c = true ∨ c = '-' ∨ c = '.' := by
  intro c hc
  simp only [dnsLabelsOk, Bool.and_eq_true, List.all_eq_true] at h
  rcases splitDots_member host.data c hc with hdot | ⟨p, hp, hcp⟩
  · exact Or.inr (Or.inr (Or.inr hdot))
  · rcases labelOk_chars (h.2 p hp) c hcp with h1 | h2 | h3
    · exact Or.inl h1
    · exact Or.inr (Or.inl h2)
    · exact Or.inr (Or.inr (Or.inl h3))

theorem digit_isHex {c : Char} (h : isDigitCh c = true) : isHexCh c = true := by
  simp [isHexCh, h]

theorem v4Fields_chars : ∀ (cs : List Char) (val dig pos : Nat),
    v4Fields cs val dig pos = true → ∀ c ∈ cs, isDigitCh c = true ∨ c = '.' := by
  intro cs
  induction cs with
  | nil =>
    intro val dig pos _ c hc
    cases hc
  | cons c0 rest ih =>
    intro val dig pos h c hc
    simp only [v4Fields] at h
    split_ifs at h with h1 h2 h3 h4 h5
    · rcases List.mem_cons.mp hc with rfl | hm
      · exact Or.inl h1
      · exact ih _ _ _ h c hm
    · rcases List.mem_cons.mp hc with rfl | hm
      · exact Or.inr (by simpa using h4)
      · exact ih _ _ _ h c hm

theorem readHexGroup_split : ∀ (cs : List Char) (acc acc2 : Nat) (rest : List Char),
    readHexGroup cs acc = some (acc2, rest) →
    ∃ pre, cs = pre ++ rest ∧ ∀ c ∈ pre, isHexCh c = true := by
  intro cs
  induction cs with
  | nil =>
    intro acc acc2 rest h
    simp only [readHexGroup, Option.some.injEq, Prod.mk.injEq] at h
    obtain ⟨-, rfl⟩ := h
    exact ⟨[], rfl, fun c hc => absurd hc (List.not_mem_nil c)⟩
  | cons c0 rest0 ih =>
    intro acc acc2 rest h
    by_cases hx : isHexCh c0 = true
    · rw [readHexGroup, if_pos hx] at h
      split_ifs at h with hov
      obtain ⟨pre0, heq, hhex⟩ := ih _ _ _ h
      refine ⟨c0 :: pre0, by rw [List.cons_append, ← heq], ?_⟩
      intro c hc
      rcases List.mem_cons.mp hc with rfl | hm
      · exact hx
      · exact hhex c hm
    · rw [readHexGroup, if_neg hx] at h
      simp only [Option.some.injEq, Prod.mk.injEq] at h
      obtain ⟨-, rfl⟩ := h
      exact ⟨[], rfl, fun c hc => absurd hc (List.not_mem_nil c)⟩

theorem v6Groups_chars : ∀ (g : Nat) (cs : List Char) (ell : Bool),
    v6Groups cs g ell = true → ∀ c ∈ cs, isHexCh c = true ∨ c = ':' ∨ c = '.' := by
  intro g
  induction g with
  | zero =>
    intro cs ell h c hc
    simp only [v6Groups, Bool.and_eq_true, List.isEmpty_iff] at h
    rw [h.1] at hc
    cases hc
  | succ g ih =>
    intro cs ell h c hc
    simp only [v6Groups] at h
    cases hread : readHexGroup cs 0 with
    | none =>
      rw [hread] at h
      exact Bool.noConfusion h
    | some pr =>
      obtain ⟨acc, rest⟩ := pr
      simp only [hread] at h
      obtain ⟨pre, hpre, hhex⟩ := readHexGroup_split cs 0 acc rest hread
      by_cases hlen : (cs.length == rest.length) = true
      · rw [if_pos hlen] at h
        exact Bool.noConfusion h
      · rw [if_neg hlen] at h
        by_cases hdot : (rest.head? == some '.') = true
        · rw [if_pos hdot] at h
          have hv4 : parseIPv4 cs = true := by
            split_ifs at h <;> exact ((Bool.and_eq_true _ _).mp h).1
          rcases v4Fields_chars cs 0 0 0 hv4 c hc with hd | hd
          · exact Or.inl (digit_isHex hd)
          · exact Or.inr (Or.inr hd)
        · rw [if_neg hdot] at h
          subst hpre
          by_cases hemp : rest.isEmpty = true
          · rw [if_pos hemp] at h
            have hr : rest = [] := by simpa [List.isEmpty_iff] using hemp
            subst hr
            rw [List.append_nil] at hc
            exact Or.inl (hhex c hc)
          · rw [if_neg hemp] at h
            cases rest with
            | nil => simp at hemp
            | cons r0 rest1 =>
              simp only [List.head?_cons, List.tail_cons, List.length_cons] at h
              by_cases hr0 : (some r0 != some ':') = true
              · rw [if_pos hr0] at h
                exact Bool.noConfusion h
              · rw [if_neg hr0] at h
                have hr0e : r0 = ':' := by simpa using hr0
                subst hr0e
                by_cases hlen1 : (rest1.length + 1 == 1) = true
                · rw [if_pos hlen1] at h
                  exact Bool.noConfusion h
                · rw [if_neg hlen1] at h
                  cases rest1 with
                  | nil => simp at hlen1
                  | cons r1 rest2 =>
                    simp only [List.head?_cons, List.tail_cons] at h
                    by_cases hr1 : (some r1 == some ':') = true
                    · rw [if_pos hr1] at h
                      have hr1e : r1 = ':' := by simpa using hr1
                      subst hr1e
                      split_ifs at h with hell hemp2
                      · have hr2 : rest2 = [] := by
                          simpa [List.isEmpty_iff] using hemp2
                        subst hr2
                        rcases List.mem_append.mp hc with hm | hm
                        · exact Or.inl (hhex c hm)
                        · rcases List.mem_cons.mp hm with rfl | hm2
                          · exact Or.inr (Or.inl rfl)
                          · rcases List.mem_cons.mp hm2 with rfl | hm3
                            · exact Or.inr (Or.inl rfl)
                            · cases hm3
                      · rcases List.mem_append.mp hc with hm | hm
                        · exact Or.inl (hhex c hm)
                        · rcases List.mem_cons.mp hm with rfl | hm2
                          · exact Or.inr (Or.inl rfl)
                          · rcases List.mem_cons.mp hm2 with rfl | hm3
                            · exact Or.inr (Or.inl rfl)
                            · exact ih rest2 true h c hm3
                    · rw [if_neg hr1] at h
                      rcases List.mem_append.mp hc with hm | hm
                      · exact Or.inl (hhex c hm)
                      · rcases List.mem_cons.mp hm with rfl | hm2
                        · exact Or.inr (Or.inl rfl)
                        · exact ih (r1 :: rest2) ell h c hm2

theorem parseIPv6_chars {cs : List Char} (h : parseIPv6 cs = true) :
    ∀ c ∈ cs, isHexCh c = true ∨ c = ':' ∨ c = '.' := by
  intro c hc
  unfold parseIPv6 at h
  split at h
  · rename_i rest
    by_cases hr : rest.isEmpty = true
    · have hrn : rest = [] := by simpa [List.isEmpty_iff] using hr
      subst hrn
      rcases List.mem_cons.mp hc with rfl | hm
      · exact Or.inr (Or.inl rfl)
      · rcases List.mem_cons.mp hm with rfl | hm2
        · exact Or.inr (Or.inl rfl)
        · cases hm2
    · rw [if_neg hr] at h
      rcases List.mem_cons.mp hc with rfl | hm
      · exact Or.inr (Or.inl rfl)
      · rcases List.mem_cons.mp hm with rfl | hm2
        · exact Or.inr (Or.inl rfl)
        · exact v6Groups_chars 8 rest true h c hm2
  · exact v6Groups_chars 8 cs false h c hc

theorem parseIP_chars {cs : List Char} (h : parseIP cs = true) :
    ∀ c ∈ cs, isHexCh c = true ∨ c = ':' ∨ c = '.' := by
  intro c hc
  unfold parseIP at h
  split_ifs at h
  split at h
  · rename_i c0 heq
    rcases v4Fields_chars cs 0 0 0 h c hc with hd | hd
    · exact Or.inl (digit_isHex hd)
    · exact Or.inr (Or.inr hd)
  · exact parseIPv6_chars h c hc
  · exact Bool.noConfusion h

/-! ## Claim C8 -/

/-- C8: the icmp probe factory only constructs a probe when the host is a
parseable IP literal or a sequence of DNS labels, and every accepted host
string is free of shell metacharacters; any other host string yields a
construction failure, so it never reaches the ping subprocess. -/
theorem icmpFactoryCreate_rejects_invalid (s : ServiceV) :
    (∀ p, ICMPFactoryCreate s = .ok p →
        (parseIP s.url.data = true ∨ dnsLabelsOk s.url = true) ∧
        ∀ c ∈ s.url.data, isShellMeta c = false) ∧
    (parseIP s.url.data = false → dnsLabelsOk s.url = false →
        ∀ p, ICMPFactoryCreate s ≠ .ok p) := by
  constructor
  · intro p hok
    have hvalid : isValidHostname s.url = true := by
      have hok2 := hok
      unfold ICMPFactoryCreate at hok2
      split_ifs at hok2 with h1 h2 h3
      simpa using h3
    have hcases : parseIP s.url.data = true ∨ dnsLabelsOk s.url = true := by
      rw [isValidHostname_eq] at hvalid
      exact (Bool.or_eq_true _ _).mp hvalid
    refine ⟨hcases, ?_⟩
    intro c hc
    rcases hcases with hip | hlab
    · rcases parseIP_chars hip c hc with hx | hcol | hdotc
      · exact hex_not_shellMeta hx
      · rw [hcol]
        exact colon_not_shellMeta
      · rw [hdotc]
        exact dot_not_shellMeta
    · rcases dnsLabelsOk_chars hlab c hc with ha | hd | hh | hdd
      · exact alpha_not_shellMeta ha
      · exact digit_not_shellMeta hd
      · rw [hh]
        exact hyphen_not_shellMeta
      · rw [hdd]
        exact dot_not_shellMeta
  · intro hip hlab p hok
    have hvalid : isValidHostname s.url = false := by
      rw [isValidHostname_eq, hip, hlab]
      rfl
    unfold ICMPFactoryCreate at hok
    split_ifs at hok with h1 h2 h3
    rw [hvalid] at h3
    simp at h3

theorem icmpFactoryCreate_rejects_invalid_witness :
    isShellMeta 'x' = false ∧
    ICMPFactoryCreate ⟨"icmp", "a;b", "", "", "", ""⟩
      ≠ .ok ⟨{ url := "a;b", name := "" }⟩ := by
  constructor
  · exact ((icmpFactoryCreate_rejects_invalid ⟨"icmp", "x", "", "", "", ""⟩).1
      ⟨{ url := "x", name := "" }⟩ rfl).2 'x' (by decide)
  · exact (icmpFactoryCreate_rejects_invalid ⟨"icmp", "a;b", "", "", "", ""⟩).2
      (by decide) (by decide) _

/-! ## Timestamp lemmas -/

theorem digitChar_mod (n : Nat) : digitChar n = digitChar (n % 10) := by
  unfold digitChar
  rw [Nat.mod_mod_of_dvd n (dvd_refl 10)]

theorem digitChar_isDigitCh (n : Nat) : isDigitCh (digitChar n) = true := by
  unfold digitChar
  split <;> decide

theorem digitVal_digitChar {d : Nat} (h : d < 10) : digitVal (digitChar d) = d := by
  interval_cases d <;> rfl

theorem digitChar_ne_zero {n : Nat} (h : n % 10 ≠ 0) : (digitChar n == '0') = false := by
  unfold digitChar
  split <;> simp_all

theorem padDigits_length (k : Nat) : ∀ n, (padDigits k n).length = k := by
  induction k with
  | zero => intro n; rfl
  | succ k ih => intro n; simp [padDigits, ih]

theorem padDigits_all_digits (k : Nat) : ∀ n c, c ∈ padDigits k n → isDigitCh c = true := by
  induction k with
  | zero => intro n c hc; cases hc
  | succ k ih =>
    intro n c hc
    rcases List.mem_cons.mp hc with rfl | hm
    · exact digitChar_isDigitCh _
    · exact ih _ c hm

theorem padDigits_append (k : Nat) : ∀ n,
    padDigits (k + 1) n = padDigits k (n / 10) ++ [digitChar (n % 10)] := by
  induction k with
  | zero =>
    intro n
    simp only [padDigits, pow_zero, Nat.div_one, List.nil_append]
    rw [← digitChar_mod]
  | succ k ih =>
    intro n
    rw [show padDigits (k + 1 + 1) n
        = digitChar (n / 10 ^ (k + 1)) :: padDigits (k + 1) (n % 10 ^ (k + 1)) from rfl]
    rw [ih (n % 10 ^ (k + 1))]
    rw [show padDigits (k + 1) (n / 10)
        = digitChar (n / 10 / 10 ^ k) :: padDigits k (n / 10 % 10 ^ k) from rfl]
    rw [List.cons_append]
    have h1 : n / 10 ^ (k + 1) = n / 10 / 10 ^ k := by
      rw [Nat.div_div_eq_div_mul]
      ring_nf
    have h2 : n % 10 ^ (k + 1) / 10 = n / 10 % 10 ^ k := by
      have : (10 : Nat) ^ (k + 1) = 10 * 10 ^ k := by ring
      rw [this, Nat.mod_mul_right_div_self]
    have h3 : n % 10 ^ (k + 1) % 10 = n % 10 := by
      apply Nat.mod_mod_of_dvd
      exact dvd_pow_self 10 (Nat.succ_ne_zero k)
    rw [h1, h2, h3]

theorem valDigits_append (cs : List Char) (c : Char) :
    valDigits (cs ++ [c]) = valDigits cs * 10 + digitVal c := by
  simp [valDigits, List.foldl_append]

theorem valDigits_padDigits (k : Nat) : ∀ n, n < 10 ^ k →
    valDigits (padDigits k n) = n := by
  induction k with
  | zero =>
    intro n h
    simp only [pow_zero, Nat.lt_one_iff] at h
    subst h
    rfl
  | succ k ih =>
    intro n h
    rw [padDigits_append, valDigits_append]
    have hdiv : n / 10 < 10 ^ k := by
      apply Nat.div_lt_of_lt_mul
      have : (10 : Nat) ^ (k + 1) = 10 * 10 ^ k := by ring
      rw [← this]
      exact h
    rw [ih (n / 10) hdiv, digitVal_digitChar (Nat.mod_lt n (by omega))]
    omega

theorem readFixed_padDigits (k : Nat) : ∀ (n acc : Nat) (rest : List Char), n < 10 ^ k →
    readFixed k acc (padDigits k n ++ rest) = some (acc * 10 ^ k + n, rest) := by
  induction k with
  | zero =>
    intro n acc rest h
    simp only [pow_zero, Nat.lt_one_iff] at h
    subst h
    simp [padDigits, readFixed]
  | succ k ih =>
    intro n acc rest h
    have hdig : n / 10 ^ k < 10 := by
      apply Nat.div_lt_of_lt_mul
      have : (10 : Nat) ^ (k + 1) = 10 ^ k * 10 := by ring
      rw [← this]
      exact h
    rw [show padDigits (k + 1) n
        = digitChar (n / 10 ^ k) :: padDigits k (n % 10 ^ k) from rfl]
    rw [List.cons_append]
    rw [show readFixed (k + 1) acc (digitChar (n / 10 ^ k) :: (padDigits k (n % 10 ^ k) ++ rest))
        = if isDigitCh (digitChar (n / 10 ^ k)) then
            readFixed k (acc * 10 + digitVal (digitChar (n / 10 ^ k)))
              (padDigits k (n % 10 ^ k) ++ rest)
          else none from rfl]
    rw [digitChar_isDigitCh, if_pos rfl, digitVal_digitChar hdig]
    rw [ih (n % 10 ^ k) _ rest (Nat.mod_lt _ (Nat.pos_pow_of_pos k (by omega)))]
    have h1 : (acc * 10 + n / 10 ^ k) * 10 ^ k + n % 10 ^ k
        = acc * 10 ^ (k + 1) + (10 ^ k * (n / 10 ^ k) + n % 10 ^ k) := by ring
    rw [h1, Nat.div_add_mod]

theorem stripZeros_append_zero (cs : List Char) :
    stripZeros (cs ++ ['0']) = stripZeros cs := by
  simp [stripZeros, List.reverse_append, List.dropWhile_cons]

theorem stripZeros_append_nonzero {c : Char} (h : (c == '0') = false) (cs : List Char) :
    stripZeros (cs ++ [c]) = cs ++ [c] := by
  simp [stripZeros, List.reverse_append, List.dropWhile_cons, h]

theorem stripZeros_mem {cs : List Char} {c : Char} (h : c ∈ stripZeros cs) : c ∈ cs := by
  unfold stripZeros at h
  rw [List.mem_reverse] at h
  have := (List.dropWhile_sublist (fun c => c == '0') (l := cs.reverse)).mem h
  rwa [List.mem_reverse] at this

theorem frac_strip_val (k : Nat) : ∀ n, n < 10 ^ k →
    valDigits (stripZeros (padDigits k n)) * 10 ^ (k - (stripZeros (padDigits k n)).length)
      = n ∧
    (stripZeros (padDigits k n)).length ≤ k ∧
    (n ≠ 0 → stripZeros (padDigits k n) ≠ []) := by
  induction k with
  | zero =>
    intro n h
    simp only [pow_zero, Nat.lt_one_iff] at h
    subst h
    exact ⟨rfl, le_refl 0, fun hn => absurd rfl hn⟩
  | succ k ih =>
    intro n h
    have hdiv : n / 10 < 10 ^ k := by
      apply Nat.div_lt_of_lt_mul
      have : (10 : Nat) ^ (k + 1) = 10 * 10 ^ k := by ring
      rw [← this]
      exact h
    rw [padDigits_append]
    by_cases hz : n % 10 = 0
    · rw [show digitChar (n % 10) = '0' from by rw [hz]; rfl]
      rw [stripZeros_append_zero]
      obtain ⟨hv, hl, hne⟩ := ih (n / 10) hdiv
      refine ⟨?_, hl.trans (Nat.le_succ k), ?_⟩
      · have hexp : k + 1 - (stripZeros (padDigits k (n / 10))).length
            = (k - (stripZeros (padDigits k (n / 10))).length) + 1 := by omega
        rw [hexp, pow_succ, ← Nat.mul_assoc, hv]
        omega
      · intro hn0
        apply hne
        omega
    · rw [stripZeros_append_nonzero (digitChar_ne_zero (show n % 10 % 10 ≠ 0 by omega))]
      refine ⟨?_, ?_, ?_⟩
      · rw [valDigits_append]
        have hlen : (padDigits k (n / 10) ++ [digitChar (n % 10)]).length = k + 1 := by
          simp [padDigits_length]
        rw [hlen, Nat.sub_self, pow_zero, Nat.mul_one]
        rw [valDigits_padDigits k (n / 10) hdiv,
          digitVal_digitChar (Nat.mod_lt n (by omega))]
        omega
      · simp [padDigits_length]
      · intro _
        simp

theorem takeDigits_append (ds rest : List Char) (hds : ∀ c ∈ ds, isDigitCh c = true)
    (hrest : ∀ c, rest.head? = some c → isDigitCh c = false) :
    takeDigits (ds ++ rest) = (ds, rest) := by
  induction ds with
  | nil =>
    cases rest with
    | nil => rfl
    | cons r rs =>
      have hr : isDigitCh r = false := hrest r rfl
      simp [takeDigits, hr]
  | cons d ds ih =>
    have hd : isDigitCh d = true := hds d (List.mem_cons_self d ds)
    have ihr := ih (fun c hc => hds c (List.mem_cons_of_mem d hc))
    simp [takeDigits, hd, ihr]

theorem nanosOfFrac_strip {n : Nat} (h : n < 1000000000) :
    nanosOfFrac (stripZeros (padDigits 9 n)) = n := by
  obtain ⟨hv, hl, -⟩ := frac_strip_val 9 n (by norm_num; omega)
  unfold nanosOfFrac
  rw [List.take_of_length_le (hl.trans (by norm_num))]
  exact hv

theorem lit_cons_self (x : Char) (cs : List Char) : lit x (x :: cs) = some cs := by
  simp [lit]

theorem parseDateList_round (y mo d : Nat) (rest : List Char)
    (hy : y < 10000) (hmo : mo < 100) (hd : d < 100) :
    parseDateList (padDigits 4 y ++ '-' :: (padDigits 2 mo ++ '-' :: (padDigits 2 d ++ rest)))
      = some ((y, mo, d), rest) := by
  have hy4 : y < 10 ^ 4 := lt_of_lt_of_eq hy (by norm_num)
  have hmo2 : mo < 10 ^ 2 := lt_of_lt_of_eq hmo (by norm_num)
  have hd2 : d < 10 ^ 2 := lt_of_lt_of_eq hd (by norm_num)
  unfold parseDateList
  rw [readFixed_padDigits 4 y 0 _ hy4]
  simp only [Option.bind_eq_bind, Option.some_bind, lit_cons_self]
  rw [readFixed_padDigits 2 mo 0 _ hmo2]
  simp only [Option.some_bind, lit_cons_self]
  rw [readFixed_padDigits 2 d 0 _ hd2]
  simp only [Option.some_bind]
  simp

theorem parseClockList_round (h mi s : Nat) (rest : List Char)
    (hh : h < 100) (hmi : mi < 100) (hs : s < 100) :
    parseClockList (padDigits 2 h ++ ':' :: (padDigits 2 mi ++ ':' :: (padDigits 2 s ++ rest)))
      = some ((h, mi, s), rest) := by
  have hh2 : h < 10 ^ 2 := lt_of_lt_of_eq hh (by norm_num)
  have hmi2 : mi < 10 ^ 2 := lt_of_lt_of_eq hmi (by norm_num)
  have hs2 : s < 10 ^ 2 := lt_of_lt_of_eq hs (by norm_num)
  unfold parseClockList
  rw [readFixed_padDigits 2 h 0 _ hh2]
  simp only [Option.bind_eq_bind, Option.some_bind, lit_cons_self]
  rw [readFixed_padDigits 2 mi 0 _ hmi2]
  simp only [Option.some_bind, lit_cons_self]
  rw [readFixed_padDigits 2 s 0 _ hs2]
  simp only [Option.some_bind]
  simp

theorem parseFracWith_fracZ (isSep : Char → Bool) (hsep : isSep '.' = true)
    {n : Nat} (hn : n < 1000000000) :
    parseFracWith isSep (fracChars n ++ ['Z']) = (n, ['Z']) := by
  by_cases hz : n = 0
  · subst hz
    rfl
  · obtain ⟨-, -, hne⟩ := frac_strip_val 9 n (by norm_num; omega)
    have hds : ∀ c ∈ stripZeros (padDigits 9 n), isDigitCh c = true :=
      fun c hc => padDigits_all_digits 9 n c (stripZeros_mem hc)
    have hfr : fracChars n = '.' :: stripZeros (padDigits 9 n) := by
      simp [fracChars, hz]
    rw [hfr]
    cases hd : stripZeros (padDigits 9 n) with
    | nil => exact absurd hd (hne hz)
    | cons d0 ds =>
      have hd0 : isDigitCh d0 = true := by
        apply hds
        rw [hd]
        exact List.mem_cons_self d0 ds
      have htake : takeDigits ((d0 :: ds) ++ ['Z']) = (d0 :: ds, ['Z']) := by
        apply takeDigits_append
        · intro c hc
          apply hds
          rw [hd]
          exact hc
        · intro c hc
          cases hc
          rfl
      rw [show ('.' :: (d0 :: ds)) ++ ['Z'] = '.' :: d0 :: (ds ++ ['Z']) from rfl]
      rw [show parseFracWith isSep ('.' :: d0 :: (ds ++ ['Z']))
          = if isSep '.' && isDigitCh d0 then
              (nanosOfFrac (takeDigits (d0 :: (ds ++ ['Z']))).1,
                (takeDigits (d0 :: (ds ++ ['Z']))).2)
            else (0, '.' :: d0 :: (ds ++ ['Z'])) from rfl]
      rw [hsep, hd0]
      simp only [Bool.and_self, if_true]
      rw [show d0 :: (ds ++ ['Z']) = (d0 :: ds) ++ ['Z'] from rfl, htake]
      rw [← hd]
      rw [nanosOfFrac_strip hn]

theorem daysInMonth_le_31 (y m : Nat) : daysInMonth y m ≤ 31 := by
  unfold daysInMonth
  split <;> first | (split <;> norm_num) | norm_num

theorem validTime_bounds {t : GoTime} (hv : ValidTime t) :
    t.year < 10000 ∧ t.month < 100 ∧ t.day < 100 ∧ t.hour < 100 ∧ t.minute < 100 ∧
    t.second < 100 ∧ t.nanos < 1000000000 := by
  obtain ⟨h1, h2, h3, h4, h5, h6, h7, h8, h9, h10⟩ := hv
  have := daysInMonth_le_31 t.year t.month
  refine ⟨by omega, by omega, by omega, by omega, by omega, by omega, h10⟩

theorem validTime_checks {t : GoTime} (hv : ValidTime t) :
    validYMD t.year t.month t.day = true ∧ validHMS t.hour t.minute t.second = true := by
  obtain ⟨h1, h2, h3, h4, h5, h6, h7, h8, h9, h10⟩ := hv
  constructor
  · simp [validYMD, h3, h4, h5, h6]
  · simp [validHMS, h7, h8, h9]

theorem fmtRFC3339Nano_data (t : GoTime) :
    (fmtRFC3339Nano t).data
      = padDigits 4 t.year ++ '-' :: (padDigits 2 t.month ++ '-' :: (padDigits 2 t.day ++
        ('T' :: (padDigits 2 t.hour ++ ':' :: (padDigits 2 t.minute ++ ':'
          :: (padDigits 2 t.second ++ (fracChars t.nanos ++ ['Z'])))))))  := by
  simp [fmtRFC3339Nano, dateChars, clockChars, List.append_assoc]

theorem fmtRFC3339_data (t : GoTime) :
    (fmtRFC3339 t).data
      = padDigits 4 t.year ++ '-' :: (padDigits 2 t.month ++ '-' :: (padDigits 2 t.day ++
        ('T' :: (padDigits 2 t.hour ++ ':' :: (padDigits 2 t.minute ++ ':'
          :: (padDigits 2 t.second ++ ['Z'])))))) := by
  simp [fmtRFC3339, dateChars, clockChars, List.append_assoc]

theorem fmtSQLite_data (t : GoTime) :
    (fmtSQLite t).data
      = padDigits 4 t.year ++ '-' :: (padDigits 2 t.month ++ '-' :: (padDigits 2 t.day ++
        (' ' :: (padDigits 2 t.hour ++ ':' :: (padDigits 2 t.minute ++ ':'
          :: (padDigits 2 t.second ++ ([] : List Char))))))) := by
  simp [fmtSQLite, dateChars, clockChars, List.append_assoc]

theorem fmtZLayout_data (t : GoTime) :
    (fmtZLayout t).data
      = padDigits 4 t.year ++ '-' :: (padDigits 2 t.month ++ '-' :: (padDigits 2 t.day ++
        ('T' :: (padDigits 2 t.hour ++ ':' :: (padDigits 2 t.minute ++ ':'
          :: (padDigits 2 t.second ++ ['Z'])))))) := by
  simp [fmtZLayout, dateChars, clockChars, List.append_assoc]

theorem goTime_eta (t : GoTime) :
    (⟨t.year, t.month, t.day, t.hour, t.minute, t.second, t.nanos⟩ : GoTime) = t := rfl

theorem parseRFC3339Str_fmtNano (t : GoTime) (hv : ValidTime t) :
    parseRFC3339Str (fmtRFC3339Nano t).data = some (toNanos t) := by
  obtain ⟨hy, hmo, hd, hh, hmi, hs, hn⟩ := validTime_bounds hv
  obtain ⟨hymd, hhms⟩ := validTime_checks hv
  rw [fmtRFC3339Nano_data]
  unfold parseRFC3339Str
  rw [parseDateList_round _ _ _ _ hy hmo hd]
  simp only [Option.bind_eq_bind, Option.some_bind, lit_cons_self]
  rw [parseClockList_round _ _ _ _ hh hmi hs]
  simp only [Option.some_bind]
  rw [parseFracWith_fracZ _ rfl hn]
  simp only []
  rw [show parseZoneEnd ['Z'] = some 0 from rfl]
  simp only [Option.some_bind, hymd, hhms, Bool.and_self, if_true]
  rw [goTime_eta]
  norm_num

theorem parseRFC3339Str_fmtSec (t : GoTime) (hv : ValidTime t) :
    parseRFC3339Str (fmtRFC3339 t).data = some (toNanos { t with nanos := 0 }) := by
  obtain ⟨hy, hmo, hd, hh, hmi, hs, hn⟩ := validTime_bounds hv
  obtain ⟨hymd, hhms⟩ := validTime_checks hv
  rw [fmtRFC3339_data]
  unfold parseRFC3339Str
  rw [parseDateList_round _ _ _ _ hy hmo hd]
  simp only [Option.bind_eq_bind, Option.some_bind, lit_cons_self]
  rw [parseClockList_round _ _ _ _ hh hmi hs]
  simp only [Option.some_bind]
  rw [show parseFracWith (fun c => c == '.') ['Z'] = (0, ['Z']) from rfl]
  simp only []
  rw [show parseZoneEnd ['Z'] = some 0 from rfl]
  simp only [Option.some_bind, hymd, hhms, Bool.and_self, if_true]
  norm_num

theorem parseSQLiteStr_fmt (t : GoTime) (hv : ValidTime t) :
    parseSQLiteStr (fmtSQLite t).data = some (toNanos { t with nanos := 0 }) := by
  obtain ⟨hy, hmo, hd, hh, hmi, hs, hn⟩ := validTime_bounds hv
  obtain ⟨hymd, hhms⟩ := validTime_checks hv
  rw [fmtSQLite_data]
  unfold parseSQLiteStr
  rw [parseDateList_round _ _ _ _ hy hmo hd]
  simp only [Option.bind_eq_bind, Option.some_bind, lit_cons_self]
  rw [parseClockList_round _ _ _ _ hh hmi hs]
  simp only [Option.some_bind]
  rw [show parseFracWith (fun c => c == '.' || c == ',') ([] : List Char)
      = (0, []) from rfl]
  simp only [hymd, hhms, Bool.and_self, if_true]
  rfl

theorem parseZLayoutStr_fmt (t : GoTime) (hv : ValidTime t) :
    parseZLayoutStr (fmtZLayout t).data = some (toNanos { t with nanos := 0 }) := by
  obtain ⟨hy, hmo, hd, hh, hmi, hs, hn⟩ := validTime_bounds hv
  obtain ⟨hymd, hhms⟩ := validTime_checks hv
  rw [fmtZLayout_data]
  unfold parseZLayoutStr
  rw [parseDateList_round _ _ _ _ hy hmo hd]
  simp only [Option.bind_eq_bind, Option.some_bind, lit_cons_self]
  rw [parseClockList_round _ _ _ _ hh hmi hs]
  simp only [Option.some_bind]
  rw [show parseFracWith (fun c => c == '.' || c == ',') ['Z'] = (0, ['Z']) from rfl]
  simp only [hymd, hhms, Bool.and_self, if_true]
  rfl

theorem parseRFC3339Str_fmtSQLite_fails (t : GoTime) (hv : ValidTime t) :
    parseRFC3339Str (fmtSQLite t).data = none := by
  obtain ⟨hy, hmo, hd, hh, hmi, hs, hn⟩ := validTime_bounds hv
  rw [fmtSQLite_data]
  unfold parseRFC3339Str
  rw [parseDateList_round _ _ _ _ hy hmo hd]
  simp only [Option.bind_eq_bind, Option.some_bind]
  rw [show lit 'T' (' ' :: (padDigits 2 t.hour ++ ':' :: (padDigits 2 t.minute ++ ':'
      :: (padDigits 2 t.second ++ ([] : List Char))))) = none from by simp [lit]]
  rfl

/-! ## Claim C7 -/

/-- C7: `parseDBTime` accepts the four formats of `sqliteTimeFormats`: a
valid instant formatted as RFC 3339 with nanoseconds parses back exactly,
and formatted in the other three second-precision forms parses back with
the nanoseconds dropped; a string rejected by every format yields the zero
instant instead of an error. -/
theorem parseDBTime_roundtrip (t : GoTime) (hv : ValidTime t) :
    parseDBTime (fmtRFC3339Nano t) = toNanos t ∧
    parseDBTime (fmtRFC3339 t) = toNanos { t with nanos := 0 } ∧
    parseDBTime (fmtSQLite t) = toNanos { t with nanos := 0 } ∧
    parseDBTime (fmtZLayout t) = toNanos { t with nanos := 0 } ∧
    (∀ s : String, parseRFC3339Str s.data = none → parseSQLiteStr s.data = none →
      parseZLayoutStr s.data = none → parseDBTime s = 0) := by
  refine ⟨?_, ?_, ?_, ?_, ?_⟩
  · simp [parseDBTime, sqliteTimeFormats, firstSome, parseRFC3339Str_fmtNano t hv]
  · simp [parseDBTime, sqliteTimeFormats, firstSome, parseRFC3339Str_fmtSec t hv]
  · simp [parseDBTime, sqliteTimeFormats, firstSome,
      parseRFC3339Str_fmtSQLite_fails t hv, parseSQLiteStr_fmt t hv]
  · simp [parseDBTime, sqliteTimeFormats, firstSome,
      show fmtZLayout t = fmtRFC3339 t from rfl, parseRFC3339Str_fmtSec t hv]
  · intro s h1 h2 h3
    simp [parseDBTime, sqliteTimeFormats, firstSome, h1, h2, h3]

theorem parseDBTime_roundtrip_witness :
    parseDBTime (fmtRFC3339Nano ⟨2026, 10, 11, 12, 34, 56, 789000000⟩)
      = toNanos ⟨2026, 10, 11, 12, 34, 56, 789000000⟩ ∧
    parseDBTime "garbage" = 0 := by
  have h := parseDBTime_roundtrip ⟨2026, 10, 11, 12, 34, 56, 789000000⟩ (by decide)
  exact ⟨h.1, h.2.2.2.2 "garbage" (by decide) (by decide) (by decide)⟩

end ServiceStatus
